import Mathlib

/-!
# vstars2vice: video-map conversion, formalised

A shallow embedding of `vstars2vice.go`.  The program reads a vSTARS XML
facility bundle, keeps the `Line` elements of every video map, parses their
coordinates as 32-bit floats and writes a JSON object that maps each map name
to the list of segment endpoints, each endpoint printed as a
degrees/minutes/seconds token.

Modelling decisions, all of which are visible in the definitions below:

* `float32` is modelled exactly.  A finite value is an integer count of the
  smallest subnormal, `2^-149`; every arithmetic operation computes the exact
  result and rounds it to nearest, ties to even, as IEEE 754 binary32 does
  when no operations are fused.  The two zeros are identified: the program
  never divides, and comparison, subtraction, multiplication by a positive
  constant and integer conversion do not distinguish them.
* `int` is the 64-bit signed integer of the common Go targets.  Converting a
  NaN, an infinity or a value outside the `int` range is implementation
  dependent in Go; the result of that conversion is the parameter `archInt`.
* `strconv.ParseFloat(s, 32)` followed by `float32(...)` is a library routine
  outside the repository; it is the parameter `ParseFloat`, returning either
  the text of the error or the parsed value.
* A Go string is modelled by a Lean `String`, and `[]byte(s)` by the same
  string; a slice is `Option (List α)` with `none` the nil slice; the Go map
  `map[string][]Point2LL` is a function from keys to optional values.
-/

namespace Vstars2vice

deriving instance DecidableEq for Except

/-! ## binary32 arithmetic -/

/-- Number of `2^-149` units in the value one. -/
def unit : Nat := 2 ^ 149

/-- First magnitude, in units of `2^-149`, that no longer fits binary32:
`2^128` expressed in units. -/
def overflowBound : Nat := 2 ^ 128 * 2 ^ 149

/-- A 32-bit float.  `fin n` is the finite value `n * 2^-149`. -/
inductive F32 where
  | fin (n : Int)
  | inf (neg : Bool)
  | nan
deriving DecidableEq

/-- Least `k` with `q / 2^k < 2^24`: the binary exponent, above the subnormal
range, of the unit in the last place for a magnitude whose integer part in
`2^-149` units is `q`.  The first argument bounds the recursion. -/
def ulpShift : Nat → Nat → Nat
  | 0, _ => 0
  | fuel + 1, q => if q < 2 ^ 24 then 0 else ulpShift fuel (q / 2) + 1

/-- Round the non-negative fraction `a / d` to the nearest integer, ties to
the even one. -/
def roundHalfEven (a d : Nat) : Nat :=
  let f := a / d
  let r := a % d
  if 2 * r < d then f
  else if d < 2 * r then f + 1
  else if f % 2 = 0 then f else f + 1

/-- Round the magnitude `a / b` (in units of `2^-149`) to the binary32 grid:
24 significant bits, spacing never below one unit.  The result is again in
units and is not yet checked for overflow. -/
def roundMag (a b : Nat) : Nat :=
  let k := ulpShift (a / b) (a / b)
  roundHalfEven a (b * 2 ^ k) * 2 ^ k

/-- Correctly rounded binary32 value of the signed magnitude `± a / b` units;
a rounded magnitude of `2^128` or more overflows to an infinity. -/
def F32.round (neg : Bool) (a b : Nat) : F32 :=
  let n := roundMag a b
  if overflowBound ≤ n then F32.inf neg
  else if neg then F32.fin (-(n : Int)) else F32.fin (n : Int)

/-- Nearest binary32 value to the integer `n` units. -/
def F32.ofUnits (n : Int) : F32 := F32.round (decide (n < 0)) n.natAbs 1

/-- Nearest binary32 value to the decimal fraction `± num / den`: the value
`strconv.ParseFloat(s, 32)` yields for a decimal literal of that value. -/
def F32.ofRatio (neg : Bool) (num den : Nat) : F32 := F32.round neg (num * unit) den

/-- The binary32 value of a small natural-number constant such as `60`. -/
def F32.ofNat (c : Nat) : F32 := F32.ofRatio false c 1

/-- Float comparison `x < 0`; false for NaN. -/
def F32.ltZero : F32 → Bool
  | F32.fin n => decide (n < 0)
  | F32.inf neg => neg
  | F32.nan => false

/-- Float comparison `x > 0`; false for NaN. -/
def F32.gtZero : F32 → Bool
  | F32.fin n => decide (0 < n)
  | F32.inf neg => !neg
  | F32.nan => false

/-- Unary minus. -/
def F32.neg : F32 → F32
  | F32.fin n => F32.fin (-n)
  | F32.inf neg => F32.inf (!neg)
  | F32.nan => F32.nan

/-- Rounded subtraction `x - y`. -/
def F32.sub : F32 → F32 → F32
  | F32.fin a, F32.fin b => F32.ofUnits (a - b)
  | F32.fin _, F32.inf neg => F32.inf (!neg)
  | F32.inf neg, F32.fin _ => F32.inf neg
  | F32.inf n1, F32.inf n2 => if n1 = n2 then F32.nan else F32.inf n1
  | _, _ => F32.nan

/-- Rounded multiplication `x * y`. -/
def F32.mul : F32 → F32 → F32
  | F32.fin a, F32.fin b =>
      F32.round (decide (a * b < 0)) (a.natAbs * b.natAbs) unit
  | F32.fin a, F32.inf neg =>
      if a = 0 then F32.nan else F32.inf (if a < 0 then !neg else neg)
  | F32.inf neg, F32.fin b =>
      if b = 0 then F32.nan else F32.inf (if b < 0 then !neg else neg)
  | F32.inf n1, F32.inf n2 => F32.inf (n1 != n2)
  | _, _ => F32.nan

/-- The float `float32(math.Floor(float64(v)))`: widening is exact, the floor
is taken exactly and the narrowing conversion rounds. -/
def floor : F32 → F32
  | F32.fin n => F32.ofUnits (n / (unit : Int) * (unit : Int))
  | v => v

/-- The float `float32(math.Ceil(float64(v)))`. -/
def ceil : F32 → F32
  | F32.fin n => F32.ofUnits (-((-n) / (unit : Int)) * (unit : Int))
  | v => v

/-- Generic `abs` of the source, at type `float32`. -/
def abs (x : F32) : F32 :=
  if x.ltZero then x.neg else x

/-- The conversion `int(v)`: truncation toward zero when the truncated value
is a 64-bit signed integer, and the implementation's choice `archInt v`
otherwise. -/
def toInt (archInt : F32 → Int) : F32 → Int
  | F32.fin n =>
      let t := Int.tdiv n (unit : Int)
      if -(2 ^ 63 : Int) ≤ t ∧ t < (2 ^ 63 : Int) then t else archInt (F32.fin n)
  | v => archInt v

/-- What amd64 produces for an unrepresentable conversion: the "integer
indefinite" value `-2^63`. -/
def amd64Int : F32 → Int := fun _ => -(2 ^ 63 : Int)

/-! ## fmt.Sprintf with a zero-padded `%d` verb -/

/-- Decimal digits of `n` padded on the left with zeros to at least `width`
characters. -/
def zeroPad (width : Nat) (n : Nat) : String :=
  String.mk (List.replicate (width - (Nat.repr n).length) '0') ++ Nat.repr n

/-- The text `fmt.Sprintf("%0<width>d", n)`: the width counts the sign, and
the zeros go between the sign and the digits. -/
def sprintfZeroD (width : Nat) (n : Int) : String :=
  if n < 0 then "-" ++ zeroPad (width - 1) n.natAbs else zeroPad width n.toNat

/-! ## Point2LL and its DMS rendering -/

/-- The array type `Point2LL`, `[2]float32`: `p0` is `p[0]` and `p1` is
`p[1]`. -/
structure Point2LL where
  p0 : F32
  p1 : F32
deriving DecidableEq

/-- Indexing `p[i]`. -/
def Point2LL.index (p : Point2LL) : Fin 2 → F32
  | 0 => p.p0
  | 1 => p.p1

/-- The closure `format` inside `DMSString`. -/
def format (archInt : F32 → Int) (v : F32) : String :=
  let s := sprintfZeroD 3 (toInt archInt v)
  let v := F32.sub v (floor v)
  let v := F32.mul v (F32.ofNat 60)
  let s := s ++ ("." ++ sprintfZeroD 2 (toInt archInt v))
  let v := F32.sub v (floor v)
  let v := F32.mul v (F32.ofNat 60)
  let s := s ++ ("." ++ sprintfZeroD 2 (toInt archInt v))
  let v := F32.sub v (floor v)
  let v := F32.mul v (F32.ofNat 1000)
  let s := s ++ ("." ++ sprintfZeroD 3 (toInt archInt v))
  s

/-- Method `DMSString`: the position in degrees, minutes, seconds. -/
def Point2LL.DMSString (archInt : F32 → Int) (p : Point2LL) : String :=
  let s := if (p.index 1).gtZero then "N" else "S"
  let s := s ++ format archInt (abs (p.index 1))
  let s := if (p.index 0).gtZero then s ++ ",E" else s ++ ",W"
  let s := s ++ format archInt (abs (p.index 0))
  s

/-- Method `MarshalJSON`: the bytes and the error returned (`none` is the nil
error). -/
def Point2LL.MarshalJSON (archInt : F32 → Int) (p : Point2LL) : String × Option String :=
  ("\"" ++ p.DMSString archInt ++ "\"", none)

/-! ## The XML records -/

/-- Record `XMLElement`; `Type_` is the field `Type`. -/
structure XMLElement where
  Type_ : String
  StartLon : String
  EndLon : String
  StartLat : String
  EndLat : String
deriving DecidableEq

/-- Record `XMLVideoMap`. -/
structure XMLVideoMap where
  LongName : String
  Group : String
  Elements : List XMLElement
deriving DecidableEq

/-- Record `XMLVideoMaps`. -/
structure XMLVideoMaps where
  Maps : List XMLVideoMap
deriving DecidableEq

/-- Record `XMLFacilityBundle`. -/
structure XMLFacilityBundle where
  VideoMaps : List XMLVideoMaps
deriving DecidableEq

/-! ## The extraction loop of `main` -/

/-- The built-in `append(s, x)` on a slice; the result is never nil. -/
def append {α : Type} (s : Option (List α)) (x : α) : Option (List α) :=
  some (s.getD [] ++ [x])

/-- The built-in `len(s)`. -/
def len {α : Type} : Option (List α) → Nat
  | none => 0
  | some l => l.length

/-- The elements of a slice, the nil slice having none. -/
def elems {α : Type} : Option (List α) → List α
  | none => []
  | some l => l

/-- The line `fmt.Fprintf(os.Stderr, "%s: %v. Skipping this segment.\n", ...)`. -/
def skipMessage (LongName err : String) : String :=
  LongName ++ ": " ++ err ++ ". Skipping this segment.\n"

/-- The line `fmt.Printf("Video map: \"%s\" with %d line segments\n", ...)`. -/
def progressMessage (LongName : String) (n : Nat) : String :=
  "Video map: \"" ++ LongName ++ "\" with " ++ Nat.repr n ++ " line segments\n"

/-- State of the loop over one map's elements: the slice `segs` and what has
been written to standard error so far. -/
structure SegState where
  segs : Option (List Point2LL)
  stderr : List String

/-- One iteration of `for _, el := range videomap.Elements`; every `continue`
returns the state reached at that point. -/
def elementStep (ParseFloat : String → Except String F32) (LongName : String)
    (st : SegState) (el : XMLElement) : SegState :=
  if el.Type_ ≠ "Line" then st
  else if el.StartLon = "0" ∧ el.EndLon = "0" ∧ el.StartLat = "0" ∧ el.EndLat = "0" then st
  else
    match ParseFloat el.StartLat with
    | Except.error err => { st with stderr := st.stderr ++ [skipMessage LongName err] }
    | Except.ok slat =>
    match ParseFloat el.StartLon with
    | Except.error err => { st with stderr := st.stderr ++ [skipMessage LongName err] }
    | Except.ok slong =>
    match ParseFloat el.EndLat with
    | Except.error err => { st with stderr := st.stderr ++ [skipMessage LongName err] }
    | Except.ok elat =>
    match ParseFloat el.EndLon with
    | Except.error err => { st with stderr := st.stderr ++ [skipMessage LongName err] }
    | Except.ok elong =>
      { st with segs := append (append st.segs ⟨slong, slat⟩) ⟨elong, elat⟩ }

/-- The inner loop over a map's elements, started with `var segs []Point2LL`
(nil) and the standard-error text written before it. -/
def extractSegs (ParseFloat : String → Except String F32) (LongName : String)
    (Elements : List XMLElement) (stderr : List String) : SegState :=
  Elements.foldl (elementStep ParseFloat LongName) ⟨none, stderr⟩

/-- What the run has produced: the map `m`, standard output and standard
error, each stream a list of the lines written. -/
structure Output where
  m : String → Option (List Point2LL)
  stdout : List String
  stderr : List String

/-- The body of `for _, videomap := range vm.Maps`. -/
def processVideoMap (ParseFloat : String → Except String F32) (out : Output)
    (videomap : XMLVideoMap) : Output :=
  let st := extractSegs ParseFloat videomap.LongName videomap.Elements out.stderr
  match st.segs with
  | none => { out with stderr := st.stderr }
  | some segs =>
    { m := fun key => if key = videomap.LongName then some segs else out.m key
      stdout := out.stdout ++ [progressMessage videomap.LongName (len (some segs))]
      stderr := st.stderr }

/-- The state at `m := make(map[string][]Point2LL)`. -/
def emptyOutput : Output := ⟨fun _ => none, [], []⟩

/-- Lines 131 to 172 of `main`: the two nested loops over the groups and their
maps that fill `m`. -/
def mainLoop (ParseFloat : String → Except String F32) (root : XMLFacilityBundle) : Output :=
  root.VideoMaps.foldl (fun out vm => vm.Maps.foldl (processVideoMap ParseFloat) out) emptyOutput

/-! ## Words of the specification -/

/-- The four coordinate attributes are all exactly the text `0`. -/
def allZero (el : XMLElement) : Bool :=
  el.StartLon == "0" && el.EndLon == "0" && el.StartLat == "0" && el.EndLat == "0"

/-- A point with the given longitude and latitude: longitude first. -/
def pointOf (longitude latitude : F32) : Point2LL := ⟨longitude, latitude⟩

/-- Start and end point of an element when all four coordinates parse. -/
def endpoints (ParseFloat : String → Except String F32) (el : XMLElement) :
    Option (Point2LL × Point2LL) :=
  match ParseFloat el.StartLon, ParseFloat el.StartLat,
        ParseFloat el.EndLon, ParseFloat el.EndLat with
  | Except.ok slon, Except.ok slat, Except.ok elon, Except.ok elat =>
      some (pointOf slon slat, pointOf elon elat)
  | _, _, _, _ => none

/-- A retained element: type exactly `Line`, not all four coordinates the
text `0`, all four coordinates parse. -/
def retained (ParseFloat : String → Except String F32) (el : XMLElement) : Bool :=
  el.Type_ == "Line" && !allZero el && (endpoints ParseFloat el).isSome

/-- The two points a retained element stands for, start then end. -/
def segmentPoints (ParseFloat : String → Except String F32) (el : XMLElement) :
    List Point2LL :=
  match endpoints ParseFloat el with
  | some (a, b) => [a, b]
  | none => []

/-- Concatenation, in element order, of the points of the retained elements. -/
def retainedPoints (ParseFloat : String → Except String F32) (els : List XMLElement) :
    List Point2LL :=
  (els.filter (retained ParseFloat)).flatMap (segmentPoints ParseFloat)

/-- Number of retained elements of a map. -/
def retainedCount (ParseFloat : String → Except String F32) (els : List XMLElement) : Nat :=
  (els.filter (retained ParseFloat)).length

/-- All video maps of the input in document order, across the groups. -/
def allMaps (root : XMLFacilityBundle) : List XMLVideoMap :=
  root.VideoMaps.flatMap (fun vm => vm.Maps)

/-- The input in which one video map, with element list `els`, sits after the
groups `G1` and the maps `M1` of its own group and before the maps `M2` and
the groups `G2`. -/
def bundleAround (G1 : List XMLVideoMaps) (M1 : List XMLVideoMap) (LongName Group : String)
    (M2 : List XMLVideoMap) (G2 : List XMLVideoMaps) (els : List XMLElement) :
    XMLFacilityBundle :=
  ⟨G1 ++ ⟨M1 ++ ⟨LongName, Group, els⟩ :: M2⟩ :: G2⟩

/-! ## Fixtures and the JSON reading of a string literal -/

/-- Value of a list of decimal digits. -/
def digitsValue (ds : List Char) : Nat :=
  ds.foldl (fun acc c => 10 * acc + (c.toNat - '0'.toNat)) 0

/-- A stand-in for `strconv.ParseFloat(s, 32)` on the plain decimal fragment:
an optional minus sign, digits, and optionally a point and more digits, with
at least one digit in all.  On that fragment it returns the correctly rounded
binary32 value, and a range error when the value overflows; every other
string is rejected as a syntax error, which is also what the library does for
a string such as `abc`.  It instantiates the parameter `ParseFloat` in the
examples, which use no other strings. -/
def decimalParseFloat (s : String) : Except String F32 :=
  let cs := s.data
  let neg := cs.head? == some '-'
  let body := if neg then cs.tail else cs
  let ip := body.takeWhile Char.isDigit
  let rest := body.dropWhile Char.isDigit
  let fp := if rest.head? == some '.' then rest.tail else []
  let wellFormed :=
    (rest.isEmpty || rest.head? == some '.') && fp.all Char.isDigit
      && !(ip.isEmpty && fp.isEmpty)
  if wellFormed then
    match F32.ofRatio neg (digitsValue (ip ++ fp)) (10 ^ fp.length) with
    | F32.fin n => Except.ok (F32.fin n)
    | _ => Except.error ("strconv.ParseFloat: parsing \"" ++ s ++ "\": value out of range")
  else
    Except.error ("strconv.ParseFloat: parsing \"" ++ s ++ "\": invalid syntax")

/-- A `Line` element with the given coordinate texts. -/
def lineElement (StartLon StartLat EndLon EndLat : String) : XMLElement :=
  { Type_ := "Line", StartLon := StartLon, EndLon := EndLon,
    StartLat := StartLat, EndLat := EndLat }

/-- A video map named `X` with one good segment. -/
def firstMapX : XMLVideoMap :=
  ⟨"X", "", [lineElement "1" "2" "3" "4"]⟩

/-- A later video map, also named `X`, with two good segments. -/
def secondMapX : XMLVideoMap :=
  ⟨"X", "", [lineElement "5" "6" "7" "8", lineElement "7" "8" "9" "10"]⟩

/-- An input in which two video maps share a name. -/
def duplicateNames : XMLFacilityBundle :=
  ⟨[⟨[firstMapX, secondMapX]⟩]⟩

/-- The float is a binary32 value: finite values are fixed by rounding. -/
def F32.isValue : F32 → Bool
  | F32.fin n => decide (F32.ofUnits n = F32.fin n)
  | _ => true

/-- The magnitude, in units of `2^-149`, that `format` carries from one field
to the next: the fractional part of `n`, rounded, times the constant `c`,
rounded. -/
def nextField (c n : Nat) : Nat :=
  roundMag (roundMag (n % unit) 1 * c) 1

/-- The text of the four fields of one axis. -/
def dmsText (d m s k : Nat) : String :=
  zeroPad 3 d ++ ("." ++ zeroPad 2 m) ++ ("." ++ zeroPad 2 s) ++ ("." ++ zeroPad 3 k)

/-- The fixed form `ddd.mm.ss.mmm`: thirteen characters, digits except for
the three points. -/
def fixedForm (s : String) : Bool :=
  match s.data with
  | [d1, d2, d3, p1, m1, m2, p2, s1, s2, p3, k1, k2, k3] =>
      d1.isDigit && d2.isDigit && d3.isDigit && p1 == '.' && m1.isDigit && m2.isDigit
        && p2 == '.' && s1.isDigit && s2.isDigit && p3 == '.'
        && k1.isDigit && k2.isDigit && k3.isDigit
  | _ => false

/-- Reader state while decoding a JSON string literal (RFC 8259, section 7):
before the opening quote, inside the string, after a backslash, inside a
`\u` escape with `k` hexadecimal digits still to come, after the closing
quote, or failed. -/
inductive JsonState where
  | start
  | body (acc : List Char)
  | escape (acc : List Char)
  | unicode (acc : List Char) (k : Nat) (code : Nat)
  | done (acc : List Char)
  | fail

/-- Value of a hexadecimal digit. -/
def hexValue (c : Char) : Option Nat :=
  if c.isDigit then some (c.toNat - '0'.toNat)
  else if 'a' ≤ c ∧ c ≤ 'f' then some (c.toNat - 'a'.toNat + 10)
  else if 'A' ≤ c ∧ c ≤ 'F' then some (c.toNat - 'A'.toNat + 10)
  else none

/-- The character a one-letter escape stands for. -/
def escapeChar (c : Char) : Option Char :=
  if c = '"' then some '"'
  else if c = '\\' then some '\\'
  else if c = '/' then some '/'
  else if c = 'b' then some (Char.ofNat 8)
  else if c = 'f' then some (Char.ofNat 12)
  else if c = 'n' then some '\n'
  else if c = 'r' then some '\r'
  else if c = 't' then some '\t'
  else none

/-- One character of input to the JSON string reader.  Unescaped characters
must be at least U+0020 and neither a quote nor a backslash; a `\u` escape
yields the code unit it names. -/
def jsonStep (st : JsonState) (c : Char) : JsonState :=
  match st with
  | JsonState.start => if c = '"' then JsonState.body [] else JsonState.fail
  | JsonState.body acc =>
      if c = '"' then JsonState.done acc
      else if c = '\\' then JsonState.escape acc
      else if c.toNat < 32 then JsonState.fail
      else JsonState.body (acc ++ [c])
  | JsonState.escape acc =>
      if c = 'u' then JsonState.unicode acc 4 0
      else match escapeChar c with
        | some d => JsonState.body (acc ++ [d])
        | none => JsonState.fail
  | JsonState.unicode acc k code =>
      match hexValue c with
      | none => JsonState.fail
      | some h =>
          if k ≤ 1 then JsonState.body (acc ++ [Char.ofNat (16 * code + h)])
          else JsonState.unicode acc (k - 1) (16 * code + h)
  | JsonState.done _ => JsonState.fail
  | JsonState.fail => JsonState.fail

/-- Decode a JSON string literal: `some s` when the text is one well-formed
literal, whose value is `s`, and `none` otherwise. -/
def jsonDecodeString (text : String) : Option String :=
  match text.data.foldl jsonStep JsonState.start with
  | JsonState.done acc => some (String.mk acc)
  | _ => none

/-- A character that a JSON string holds unescaped. -/
def plainChar (c : Char) : Prop := c ≠ '"' ∧ c ≠ '\\' ∧ ¬ c.toNat < 32

/-- The characters the DMS token is said to consist of. -/
def tokenChar (c : Char) : Bool :=
  c == 'N' || c == 'S' || c == 'E' || c == 'W' || c.isDigit || c == '.' || c == ','

/-! ## The decode stage of `main` -/

/-- What lines 115 to 129 of `main` leave behind: the decoded bundle, or the
error handed to `bail`, and whether the second `Decode` call was made. -/
structure DecodeStage where
  root : Except String XMLFacilityBundle
  secondAttempt : Bool

/-- Lines 115 to 129 of `main`.  The XML decoder is a library; `first` is the
outcome of `d.Decode(&root)` and `second` the outcome that
`d.Decode(&root.VideoMaps)` has on the rewound input. -/
def decodeStage (first : Except String XMLFacilityBundle)
    (second : Except String (List XMLVideoMaps)) : DecodeStage :=
  match first with
  | Except.error err => ⟨Except.error err, false⟩
  | Except.ok root =>
    if root.VideoMaps.length = 0 then
      match second with
      | Except.error err => ⟨Except.error err, true⟩
      | Except.ok groups => ⟨Except.ok { root with VideoMaps := groups }, true⟩
    else ⟨Except.ok root, false⟩

/-! ## The fields of `format` -/

/-- The values `v` holds at the four `int(v)` conversions of `format`, in the
order of the conversions. -/
def formatStages (v : F32) : F32 × F32 × F32 × F32 :=
  let v0 := v
  let v := F32.sub v (floor v)
  let v := F32.mul v (F32.ofNat 60)
  let v1 := v
  let v := F32.sub v (floor v)
  let v := F32.mul v (F32.ofNat 60)
  let v2 := v
  let v := F32.sub v (floor v)
  let v := F32.mul v (F32.ofNat 1000)
  let v3 := v
  (v0, v1, v2, v3)

/-- The four integers `format` hands to `Sprintf`: degrees, minutes, seconds
and thousandths. -/
def formatFields (archInt : F32 → Int) (v : F32) : Int × Int × Int × Int :=
  (toInt archInt (formatStages v).1, toInt archInt (formatStages v).2.1,
    toInt archInt (formatStages v).2.2.1, toInt archInt (formatStages v).2.2.2)

/-- The arithmetic of `format` is exact on `v`: all four stage values are
finite, and each float computed for `(v - floor(v)) * c` is the exact product
of the exact fractional part of the stage before it, nothing being lost to
rounding. -/
def arithmeticExact (v : F32) : Bool :=
  match formatStages v with
  | (F32.fin n0, F32.fin n1, F32.fin n2, F32.fin n3) =>
      decide (n1 = n0 % (unit : Int) * 60) && decide (n2 = n1 % (unit : Int) * 60)
        && decide (n3 = n2 % (unit : Int) * 1000)
  | _ => false

/-- The count of thousandths of an arc second that the four fields stand
for. -/
def fieldsCount (f : Int × Int × Int × Int) : Int :=
  f.1 * 3600000 + f.2.1 * 60000 + f.2.2.1 * 1000 + f.2.2.2

/-- The count of thousandths of an arc second in a finite value, truncated:
`floor(v * 3600000)`. -/
def truncatedCount : F32 → Int
  | F32.fin n => n * 3600000 / (unit : Int)
  | _ => 0

/-- A string of exactly `w` decimal digits. -/
def digitString (w : Nat) (s : String) : Bool :=
  s.data.length == w && s.data.all Char.isDigit

/-! ## Words of the specification: diagnostics and duplicate names -/

/-- The parse error of the first failing field, in the order StartLat,
StartLon, EndLat, EndLon. -/
def firstParseError (ParseFloat : String → Except String F32) (el : XMLElement) :
    Option String :=
  match ParseFloat el.StartLat with
  | Except.error err => some err
  | Except.ok _ =>
  match ParseFloat el.StartLon with
  | Except.error err => some err
  | Except.ok _ =>
  match ParseFloat el.EndLat with
  | Except.error err => some err
  | Except.ok _ =>
  match ParseFloat el.EndLon with
  | Except.error err => some err
  | Except.ok _ => none

/-- A diagnosed element: type `Line`, not all four coordinates the text `0`,
at least one coordinate that does not parse. -/
def diagnosed (ParseFloat : String → Except String F32) (el : XMLElement) : Bool :=
  el.Type_ == "Line" && !allZero el && (endpoints ParseFloat el).isNone

/-- The diagnostic line a diagnosed element of the map `LongName` stands
for. -/
def diagnosticOf (ParseFloat : String → Except String F32) (LongName : String)
    (el : XMLElement) : Option String :=
  if diagnosed ParseFloat el then
    (firstParseError ParseFloat el).map (skipMessage LongName)
  else none

/-- The diagnostics of an input: map by map in document order, element by
element. -/
def diagnosticsOf (ParseFloat : String → Except String F32) (root : XMLFacilityBundle) :
    List String :=
  (allMaps root).flatMap
    (fun videomap => videomap.Elements.filterMap (diagnosticOf ParseFloat videomap.LongName))

/-- The last video map of the given name, in document order across all groups,
that has at least one retained segment. -/
def lastRetainedNamed (ParseFloat : String → Except String F32) (root : XMLFacilityBundle)
    (name : String) : Option XMLVideoMap :=
  ((allMaps root).filter (fun videomap =>
    videomap.LongName == name && decide (0 < retainedCount ParseFloat videomap.Elements))).getLast?

/-- An input with one video map that has one good segment. -/
def oneSegment : XMLFacilityBundle :=
  ⟨[⟨[⟨"A", "", [lineElement "1" "2" "3" "4"]⟩]⟩]⟩

/-- An input whose only group has no video map. -/
def emptyGroup : XMLFacilityBundle :=
  ⟨[⟨[]⟩]⟩

/-! ## The extraction loop: lemmas -/

section Loop

variable (ParseFloat : String → Except String F32)

theorem allZero_iff (el : XMLElement) :
    allZero el = true ↔
      (el.StartLon = "0" ∧ el.EndLon = "0" ∧ el.StartLat = "0" ∧ el.EndLat = "0") := by
  simp [allZero, and_assoc]

theorem elementStep_not_line (LongName : String) (st : SegState) (el : XMLElement)
    (h : el.Type_ ≠ "Line") : elementStep ParseFloat LongName st el = st := by
  simp [elementStep, h]

theorem elementStep_allZero (LongName : String) (st : SegState) (el : XMLElement)
    (h : allZero el = true) : elementStep ParseFloat LongName st el = st := by
  have h4 := (allZero_iff el).1 h
  simp [elementStep, h4]

theorem elementStep_segs_retained (LongName : String) (st : SegState) (el : XMLElement)
    (h : retained ParseFloat el = true) :
    (elementStep ParseFloat LongName st el).segs
      = some (elems st.segs ++ segmentPoints ParseFloat el) := by
  simp only [retained, Bool.and_eq_true, Bool.not_eq_true', beq_iff_eq] at h
  obtain ⟨⟨hline, hz⟩, hsome⟩ := h
  have hz4 : ¬ (el.StartLon = "0" ∧ el.EndLon = "0" ∧ el.StartLat = "0" ∧ el.EndLat = "0") := by
    intro h4
    rw [(allZero_iff el).2 h4] at hz
    exact Bool.noConfusion hz
  unfold elementStep
  rw [if_neg (by simpa using hline), if_neg hz4]
  unfold segmentPoints
  unfold endpoints at hsome ⊢
  cases h1 : ParseFloat el.StartLon <;> cases h2 : ParseFloat el.StartLat <;>
    cases h3 : ParseFloat el.EndLon <;> cases h4 : ParseFloat el.EndLat <;>
    simp [h1, h2, h3, h4] at hsome ⊢
  cases hs : st.segs <;> simp [append, elems, pointOf]

theorem elementStep_segs_not_retained (LongName : String) (st : SegState) (el : XMLElement)
    (h : retained ParseFloat el = false) :
    (elementStep ParseFloat LongName st el).segs = st.segs := by
  unfold elementStep
  split
  · rfl
  · rename_i hline
    split
    · rfl
    · rename_i hz4
      have hz : allZero el = false := by
        cases hz : allZero el
        · rfl
        · exact absurd ((allZero_iff el).1 hz) hz4
      have hline2 : el.Type_ = "Line" := by simpa using hline
      have hnone : endpoints ParseFloat el = none := by
        simpa [retained, hline2, hz] using h
      unfold endpoints at hnone
      cases h1 : ParseFloat el.StartLon <;> cases h2 : ParseFloat el.StartLat <;>
        cases h3 : ParseFloat el.EndLon <;> cases h4 : ParseFloat el.EndLat <;>
        simp [h1, h2, h3, h4] at hnone ⊢

theorem retainedPoints_cons (el : XMLElement) (els : List XMLElement) :
    retainedPoints ParseFloat (el :: els)
      = (if retained ParseFloat el = true then segmentPoints ParseFloat el else [])
          ++ retainedPoints ParseFloat els := by
  unfold retainedPoints
  by_cases h : retained ParseFloat el = true
  · simp [List.filter_cons, h]
  · simp [List.filter_cons, h]

theorem retainedCount_cons (el : XMLElement) (els : List XMLElement) :
    retainedCount ParseFloat (el :: els)
      = (if retained ParseFloat el = true then 1 else 0) + retainedCount ParseFloat els := by
  unfold retainedCount
  by_cases h : retained ParseFloat el = true
  · simp [List.filter_cons, h, Nat.add_comm]
  · simp [List.filter_cons, h]

theorem segmentPoints_length (el : XMLElement) (h : retained ParseFloat el = true) :
    (segmentPoints ParseFloat el).length = 2 := by
  simp only [retained, Bool.and_eq_true] at h
  obtain ⟨_, hsome⟩ := h
  unfold segmentPoints
  cases he : endpoints ParseFloat el with
  | none => simp [he] at hsome
  | some ab => rfl

theorem retainedPoints_length (els : List XMLElement) :
    (retainedPoints ParseFloat els).length = 2 * retainedCount ParseFloat els := by
  induction els with
  | nil => rfl
  | cons el els ih =>
    rw [retainedPoints_cons, retainedCount_cons, List.length_append, ih]
    by_cases h : retained ParseFloat el = true
    · rw [if_pos h, if_pos h, segmentPoints_length ParseFloat el h]; ring
    · rw [if_neg h, if_neg h]; simp

/-- The slice after the loop, from any starting state. -/
theorem foldl_elementStep_segs (LongName : String) (els : List XMLElement) (st : SegState) :
    (els.foldl (elementStep ParseFloat LongName) st).segs
      = if retainedCount ParseFloat els = 0 then st.segs
        else some (elems st.segs ++ retainedPoints ParseFloat els) := by
  induction els generalizing st with
  | nil => simp [retainedCount]
  | cons el els ih =>
    rw [List.foldl_cons, ih, retainedPoints_cons, retainedCount_cons]
    by_cases h : retained ParseFloat el = true
    · rw [elementStep_segs_retained ParseFloat LongName st el h, if_pos h, if_pos h]
      have h1 : ¬ (1 + retainedCount ParseFloat els = 0) := by omega
      rw [if_neg h1]
      by_cases h0 : retainedCount ParseFloat els = 0
      · rw [if_pos h0]
        have : retainedPoints ParseFloat els = [] := by
          have hl := retainedPoints_length ParseFloat els
          rw [h0] at hl
          exact List.length_eq_zero.1 hl
        rw [this]; simp
      · rw [if_neg h0]; simp [elems]
    · have hf : retained ParseFloat el = false := by simpa using h
      rw [elementStep_segs_not_retained ParseFloat LongName st el hf, if_neg h, if_neg h]
      simp

theorem extractSegs_segs (LongName : String) (els : List XMLElement) (errs : List String) :
    (extractSegs ParseFloat LongName els errs).segs
      = if retainedCount ParseFloat els = 0 then none
        else some (retainedPoints ParseFloat els) := by
  unfold extractSegs
  rw [foldl_elementStep_segs]
  simp [elems]

/-- The map after one video map has been processed. -/
theorem processVideoMap_m (out : Output) (videomap : XMLVideoMap) :
    (processVideoMap ParseFloat out videomap).m
      = if retainedCount ParseFloat videomap.Elements = 0 then out.m
        else fun key => if key = videomap.LongName
          then some (retainedPoints ParseFloat videomap.Elements) else out.m key := by
  unfold processVideoMap
  have h := extractSegs_segs ParseFloat videomap.LongName videomap.Elements out.stderr
  by_cases h0 : retainedCount ParseFloat videomap.Elements = 0
  · rw [if_pos h0] at h ⊢
    simp only [h]
  · rw [if_neg h0] at h ⊢
    simp only [h]

theorem mainLoop_eq_foldl (root : XMLFacilityBundle) :
    mainLoop ParseFloat root
      = (allMaps root).foldl (processVideoMap ParseFloat) emptyOutput := by
  unfold mainLoop allMaps
  generalize emptyOutput = out
  induction root.VideoMaps generalizing out with
  | nil => rfl
  | cons g gs ih => simp [List.flatMap_cons, List.foldl_append, ih]

end Loop

section LoopMaps

variable (ParseFloat : String → Except String F32)

theorem foldl_processVideoMap_m_unchanged (key : String) (maps : List XMLVideoMap)
    (out : Output)
    (h : ∀ vm ∈ maps, vm.LongName = key → retainedCount ParseFloat vm.Elements = 0) :
    (maps.foldl (processVideoMap ParseFloat) out).m key = out.m key := by
  induction maps generalizing out with
  | nil => rfl
  | cons vm maps ih =>
    rw [List.foldl_cons, ih _ (fun v hv => h v (List.mem_cons_of_mem _ hv)),
      processVideoMap_m]
    by_cases h0 : retainedCount ParseFloat vm.Elements = 0
    · rw [if_pos h0]
    · rw [if_neg h0]
      have hne : key ≠ vm.LongName := fun hk => h0 (h vm (List.mem_cons_self _ _) hk.symm)
      simp [hne]

theorem foldl_processVideoMap_m_isSome (key : String) (maps : List XMLVideoMap)
    (out : Output) :
    ((maps.foldl (processVideoMap ParseFloat) out).m key).isSome = true ↔
      ((out.m key).isSome = true ∨
        ∃ vm ∈ maps, vm.LongName = key ∧ 0 < retainedCount ParseFloat vm.Elements) := by
  induction maps generalizing out with
  | nil => simp
  | cons vm maps ih =>
    rw [List.foldl_cons, ih, processVideoMap_m]
    by_cases h0 : retainedCount ParseFloat vm.Elements = 0
    · rw [if_pos h0]
      constructor
      · rintro (h | ⟨v, hv, hn, hr⟩)
        · exact Or.inl h
        · exact Or.inr ⟨v, List.mem_cons_of_mem _ hv, hn, hr⟩
      · rintro (h | ⟨v, hv, hn, hr⟩)
        · exact Or.inl h
        · rcases List.mem_cons.1 hv with rfl | hv
          · omega
          · exact Or.inr ⟨v, hv, hn, hr⟩
    · rw [if_neg h0]
      by_cases hk : key = vm.LongName
      · simp only [hk, if_true, Option.isSome_some, true_or, true_iff]
        exact Or.inr ⟨vm, List.mem_cons_self _ _, rfl, Nat.pos_of_ne_zero h0⟩
      · simp only [hk, if_false]
        constructor
        · rintro (h | ⟨v, hv, hn, hr⟩)
          · exact Or.inl h
          · exact Or.inr ⟨v, List.mem_cons_of_mem _ hv, hn, hr⟩
        · rintro (h | ⟨v, hv, hn, hr⟩)
          · exact Or.inl h
          · rcases List.mem_cons.1 hv with rfl | hv
            · exact absurd hn.symm hk
            · exact Or.inr ⟨v, hv, hn, hr⟩

theorem retainedPoints_ne_nil (els : List XMLElement)
    (h : retainedCount ParseFloat els ≠ 0) : retainedPoints ParseFloat els ≠ [] := by
  intro hnil
  have hl := retainedPoints_length ParseFloat els
  rw [hnil] at hl
  simp at hl
  exact h hl

theorem foldl_processVideoMap_m_ne_nil (maps : List XMLVideoMap) (out : Output)
    (hout : ∀ key, out.m key ≠ some []) :
    ∀ key, (maps.foldl (processVideoMap ParseFloat) out).m key ≠ some [] := by
  induction maps generalizing out with
  | nil => exact hout
  | cons vm maps ih =>
    rw [List.foldl_cons]
    apply ih
    intro key
    rw [processVideoMap_m]
    by_cases h0 : retainedCount ParseFloat vm.Elements = 0
    · rw [if_pos h0]; exact hout key
    · rw [if_neg h0]
      by_cases hk : key = vm.LongName
      · simp only [hk, if_true]
        intro h
        exact retainedPoints_ne_nil ParseFloat _ h0 (Option.some.inj h)
      · simp only [hk, if_false]; exact hout key

/-- The map depends on the input only through the retained points of each
video map. -/
theorem foldl_processVideoMap_m_congr (maps maps' : List XMLVideoMap) (out out' : Output)
    (hm : out.m = out'.m)
    (h : List.Forall₂ (fun a b => a.LongName = b.LongName ∧
        retainedPoints ParseFloat a.Elements = retainedPoints ParseFloat b.Elements) maps maps') :
    (maps.foldl (processVideoMap ParseFloat) out).m
      = (maps'.foldl (processVideoMap ParseFloat) out').m := by
  induction h generalizing out out' with
  | nil => exact hm
  | @cons a b l l' hab _ ih =>
    rw [List.foldl_cons, List.foldl_cons]
    apply ih
    rw [processVideoMap_m, processVideoMap_m, hm]
    have hc : retainedCount ParseFloat a.Elements = retainedCount ParseFloat b.Elements := by
      have h1 := retainedPoints_length ParseFloat a.Elements
      have h2 := retainedPoints_length ParseFloat b.Elements
      rw [hab.2] at h1
      omega
    rw [hc, hab.1, hab.2]

theorem forall₂_same (maps : List XMLVideoMap) :
    List.Forall₂ (fun a b => a.LongName = b.LongName ∧
        retainedPoints ParseFloat a.Elements = retainedPoints ParseFloat b.Elements) maps maps := by
  induction maps with
  | nil => exact List.Forall₂.nil
  | cons a l ih => exact List.Forall₂.cons ⟨rfl, rfl⟩ ih

theorem allMaps_bundleAround (G1 : List XMLVideoMaps) (M1 : List XMLVideoMap)
    (LongName Group : String) (M2 : List XMLVideoMap) (G2 : List XMLVideoMaps)
    (els : List XMLElement) :
    allMaps (bundleAround G1 M1 LongName Group M2 G2 els)
      = (allMaps ⟨G1⟩ ++ M1) ++ ⟨LongName, Group, els⟩ :: (M2 ++ allMaps ⟨G2⟩) := by
  simp [allMaps, bundleAround, List.flatMap_append, List.flatMap_cons]

theorem retainedPoints_delete (E1 E2 : List XMLElement) (el : XMLElement)
    (h : retained ParseFloat el = false) :
    retainedPoints ParseFloat (E1 ++ el :: E2) = retainedPoints ParseFloat (E1 ++ E2) := by
  simp [retainedPoints, List.filter_append, List.filter_cons, h]

/-- Deleting an element that is not retained leaves the map unchanged. -/
theorem mainLoop_m_delete (G1 : List XMLVideoMaps) (M1 : List XMLVideoMap)
    (LongName Group : String) (M2 : List XMLVideoMap) (G2 : List XMLVideoMaps)
    (E1 E2 : List XMLElement) (el : XMLElement) (h : retained ParseFloat el = false) :
    (mainLoop ParseFloat (bundleAround G1 M1 LongName Group M2 G2 (E1 ++ el :: E2))).m
      = (mainLoop ParseFloat (bundleAround G1 M1 LongName Group M2 G2 (E1 ++ E2))).m := by
  rw [mainLoop_eq_foldl, mainLoop_eq_foldl, allMaps_bundleAround, allMaps_bundleAround]
  apply foldl_processVideoMap_m_congr ParseFloat _ _ _ _ rfl
  apply List.rel_append (forall₂_same ParseFloat _)
  exact List.Forall₂.cons ⟨rfl, retainedPoints_delete ParseFloat E1 E2 el h⟩
    (forall₂_same ParseFloat _)

/-- Deleting an element whose iteration leaves the loop state untouched
leaves the whole output unchanged. -/
theorem mainLoop_delete_of_step_id (G1 : List XMLVideoMaps) (M1 : List XMLVideoMap)
    (LongName Group : String) (M2 : List XMLVideoMap) (G2 : List XMLVideoMaps)
    (E1 E2 : List XMLElement) (el : XMLElement)
    (h : ∀ st, elementStep ParseFloat LongName st el = st) :
    mainLoop ParseFloat (bundleAround G1 M1 LongName Group M2 G2 (E1 ++ el :: E2))
      = mainLoop ParseFloat (bundleAround G1 M1 LongName Group M2 G2 (E1 ++ E2)) := by
  have hp : ∀ out, processVideoMap ParseFloat out ⟨LongName, Group, E1 ++ el :: E2⟩
      = processVideoMap ParseFloat out ⟨LongName, Group, E1 ++ E2⟩ := by
    intro out
    simp [processVideoMap, extractSegs, List.foldl_append, h]
  simp [mainLoop, bundleAround, List.foldl_append, hp]

end LoopMaps

/-! ## Claims about the extraction loop -/

/-- C1: for every video map the point sequence built by the extraction loop
is the concatenation, in element order, over the retained elements (type
`Line`, not all four coordinates `0`, all four parse) of the start point and
then the end point, each point holding the parsed longitude at index 0 and the
parsed latitude at index 1. -/
theorem C1_extraction_is_concatenation_of_retained
    (ParseFloat : String → Except String F32) (videomap : XMLVideoMap) (errs : List String) :
    elems (extractSegs ParseFloat videomap.LongName videomap.Elements errs).segs
        = (videomap.Elements.filter (retained ParseFloat)).flatMap (segmentPoints ParseFloat)
      ∧ ∀ el, retained ParseFloat el = true →
          ∃ slon slat elon elat a b,
            ParseFloat el.StartLon = Except.ok slon ∧ ParseFloat el.StartLat = Except.ok slat ∧
            ParseFloat el.EndLon = Except.ok elon ∧ ParseFloat el.EndLat = Except.ok elat ∧
            segmentPoints ParseFloat el = [a, b] ∧
            a.index 0 = slon ∧ a.index 1 = slat ∧ b.index 0 = elon ∧ b.index 1 = elat := by
  constructor
  · rw [extractSegs_segs]
    by_cases h0 : retainedCount ParseFloat videomap.Elements = 0
    · rw [if_pos h0]
      have hl := retainedPoints_length ParseFloat videomap.Elements
      rw [h0] at hl
      have : retainedPoints ParseFloat videomap.Elements = [] := List.length_eq_zero.1 hl
      simpa [elems, retainedPoints] using this.symm
    · rw [if_neg h0]; rfl
  · intro el h
    simp only [retained, Bool.and_eq_true] at h
    obtain ⟨_, hsome⟩ := h
    unfold segmentPoints
    unfold endpoints at hsome ⊢
    cases h1 : ParseFloat el.StartLon <;> cases h2 : ParseFloat el.StartLat <;>
      cases h3 : ParseFloat el.EndLon <;> cases h4 : ParseFloat el.EndLat <;>
      simp [h1, h2, h3, h4] at hsome ⊢
    exact ⟨_, _, ⟨rfl, rfl⟩, rfl, rfl, rfl, rfl⟩

set_option maxRecDepth 100000 in
/-- C2, as stated, fails: in `duplicateNames` the first map named `X` has one
retained segment, yet the sequence stored under `X` has four points, those of
the later map of the same name. -/
theorem C2_counterexample_duplicate_names :
    firstMapX ∈ allMaps duplicateNames
      ∧ retainedCount decimalParseFloat firstMapX.Elements = 1
      ∧ ((mainLoop decimalParseFloat duplicateNames).m firstMapX.LongName).map List.length
          = some 4
      ∧ ((mainLoop decimalParseFloat duplicateNames).m firstMapX.LongName).map List.length
          ≠ some (2 * retainedCount decimalParseFloat firstMapX.Elements) := by
  decide

/-- C2, amended: a video map with at least one retained element always has its
name among the keys; when no later video map of the same name has a retained
element, the sequence stored under the name is that map's retained points in
element order, and its length is twice the number of retained elements. -/
theorem C2_key_present_and_length_when_last
    (ParseFloat : String → Except String F32) (root : XMLFacilityBundle)
    (pre post : List XMLVideoMap) (videomap : XMLVideoMap)
    (hsplit : allMaps root = pre ++ videomap :: post)
    (hret : 0 < retainedCount ParseFloat videomap.Elements) :
    (∃ l, (mainLoop ParseFloat root).m videomap.LongName = some l)
      ∧ ((∀ later ∈ post, later.LongName = videomap.LongName →
            retainedCount ParseFloat later.Elements = 0) →
          (mainLoop ParseFloat root).m videomap.LongName
              = some (retainedPoints ParseFloat videomap.Elements)
            ∧ (retainedPoints ParseFloat videomap.Elements).length
              = 2 * retainedCount ParseFloat videomap.Elements) := by
  constructor
  · have h := (foldl_processVideoMap_m_isSome ParseFloat videomap.LongName
      (allMaps root) emptyOutput).2
      (Or.inr ⟨videomap, by rw [hsplit]; simp, rfl, hret⟩)
    rw [← mainLoop_eq_foldl] at h
    exact Option.isSome_iff_exists.1 h
  · intro hlast
    refine ⟨?_, retainedPoints_length ParseFloat _⟩
    rw [mainLoop_eq_foldl, hsplit, List.foldl_append, List.foldl_cons,
      foldl_processVideoMap_m_unchanged ParseFloat _ post _ hlast, processVideoMap_m,
      if_neg (by omega)]
    simp

set_option maxRecDepth 100000 in
/-- C2 amended, at a concrete input: the later map named `X` is the last of
its name and its two segments give four points. -/
theorem C2_key_present_and_length_when_last_witness :
    allMaps duplicateNames = [firstMapX] ++ secondMapX :: []
      ∧ 0 < retainedCount decimalParseFloat secondMapX.Elements
      ∧ (mainLoop decimalParseFloat duplicateNames).m secondMapX.LongName
          = some (retainedPoints decimalParseFloat secondMapX.Elements)
      ∧ (retainedPoints decimalParseFloat secondMapX.Elements).length
          = 2 * retainedCount decimalParseFloat secondMapX.Elements :=
  ⟨by decide, by decide,
    (C2_key_present_and_length_when_last decimalParseFloat duplicateNames [firstMapX] []
      secondMapX (by decide) (by decide)).2 (by simp)⟩

/-- C3: when one of the four coordinates of a `Line` element that is not
all-`0` fails to parse, the element adds no point and one diagnostic naming
the map, and the output map is the one obtained with that element deleted, so
the other segments of the map and all other maps are processed as before. -/
theorem C3_unparseable_segment_skipped
    (ParseFloat : String → Except String F32)
    (G1 : List XMLVideoMaps) (M1 : List XMLVideoMap) (LongName Group : String)
    (M2 : List XMLVideoMap) (G2 : List XMLVideoMaps) (E1 E2 : List XMLElement)
    (el : XMLElement)
    (hline : el.Type_ = "Line") (hnz : allZero el = false)
    (hfail : (∃ e, ParseFloat el.StartLat = Except.error e)
      ∨ (∃ e, ParseFloat el.StartLon = Except.error e)
      ∨ (∃ e, ParseFloat el.EndLat = Except.error e)
      ∨ (∃ e, ParseFloat el.EndLon = Except.error e)) :
    (mainLoop ParseFloat (bundleAround G1 M1 LongName Group M2 G2 (E1 ++ el :: E2))).m
        = (mainLoop ParseFloat (bundleAround G1 M1 LongName Group M2 G2 (E1 ++ E2))).m
      ∧ ∀ st, ∃ err, elementStep ParseFloat LongName st el
          = { st with stderr := st.stderr ++ [skipMessage LongName err] } := by
  have hz4 : ¬ (el.StartLon = "0" ∧ el.EndLon = "0" ∧ el.StartLat = "0" ∧ el.EndLat = "0") := by
    intro h4
    rw [(allZero_iff el).2 h4] at hnz
    exact Bool.noConfusion hnz
  constructor
  · apply mainLoop_m_delete
    have hnone : endpoints ParseFloat el = none := by
      unfold endpoints
      rcases hfail with ⟨e, h⟩ | ⟨e, h⟩ | ⟨e, h⟩ | ⟨e, h⟩ <;>
        cases h1 : ParseFloat el.StartLon <;> cases h2 : ParseFloat el.StartLat <;>
        cases h3 : ParseFloat el.EndLon <;> cases h4 : ParseFloat el.EndLat <;>
        simp_all
    simp [retained, hnone]
  · intro st
    unfold elementStep
    rw [if_neg (by simpa using hline), if_neg hz4]
    rcases hfail with ⟨e, h⟩ | ⟨e, h⟩ | ⟨e, h⟩ | ⟨e, h⟩ <;>
      cases h1 : ParseFloat el.StartLon <;> cases h2 : ParseFloat el.StartLat <;>
      cases h3 : ParseFloat el.EndLon <;> cases h4 : ParseFloat el.EndLat <;>
      simp_all

set_option maxRecDepth 100000 in
/-- C3 at a concrete input: a start latitude `abc` between two good segments. -/
theorem C3_unparseable_segment_skipped_witness :
    (lineElement "-75.2" "abc" "-75.3" "39.9").Type_ = "Line"
      ∧ allZero (lineElement "-75.2" "abc" "-75.3" "39.9") = false
      ∧ (∃ e, decimalParseFloat (lineElement "-75.2" "abc" "-75.3" "39.9").StartLat
            = Except.error e)
      ∧ (mainLoop decimalParseFloat (bundleAround [] [] "A" "" [secondMapX] []
            ([lineElement "1" "2" "3" "4"]
              ++ lineElement "-75.2" "abc" "-75.3" "39.9" :: [lineElement "5" "6" "7" "8"]))).m
          = (mainLoop decimalParseFloat (bundleAround [] [] "A" "" [secondMapX] []
            ([lineElement "1" "2" "3" "4"] ++ [lineElement "5" "6" "7" "8"]))).m :=
  ⟨rfl, by decide, ⟨"strconv.ParseFloat: parsing \"abc\": invalid syntax", by decide⟩,
    (C3_unparseable_segment_skipped decimalParseFloat [] [] "A" "" [secondMapX] []
      [lineElement "1" "2" "3" "4"] [lineElement "5" "6" "7" "8"]
      (lineElement "-75.2" "abc" "-75.3" "39.9") rfl (by decide)
      (Or.inl ⟨"strconv.ParseFloat: parsing \"abc\": invalid syntax", by decide⟩)).1⟩

/-- C4: a name is a key of the output map exactly when some video map of that
name has at least one retained segment; no key holds an empty sequence, and a
video map without retained segments leaves the map as it was. -/
theorem C4_key_iff_retained_segment
    (ParseFloat : String → Except String F32) (root : XMLFacilityBundle) :
    (∀ name, ((mainLoop ParseFloat root).m name).isSome = true ↔
        ∃ videomap ∈ allMaps root,
          videomap.LongName = name ∧ 0 < retainedCount ParseFloat videomap.Elements)
      ∧ (∀ name, (mainLoop ParseFloat root).m name ≠ some [])
      ∧ (∀ out videomap, retainedCount ParseFloat videomap.Elements = 0 →
          (processVideoMap ParseFloat out videomap).m = out.m) := by
  refine ⟨?_, ?_, ?_⟩
  · intro name
    rw [mainLoop_eq_foldl, foldl_processVideoMap_m_isSome]
    simp [emptyOutput]
  · rw [mainLoop_eq_foldl]
    apply foldl_processVideoMap_m_ne_nil
    intro key
    simp [emptyOutput]
  · intro out videomap h0
    rw [processVideoMap_m, if_pos h0]

/-- C5: a `Line` element whose four coordinates are all the text `0` adds no
point and no diagnostic, the output being that of the input without it,
although its coordinates parse; among `Line` elements with four parseable
coordinates only those are dropped, every other one adding its two points, so
an element with four `0.0` coordinates is retained. -/
theorem C5_all_zero_text_dropped
    (ParseFloat : String → Except String F32)
    (G1 : List XMLVideoMaps) (M1 : List XMLVideoMap) (LongName Group : String)
    (M2 : List XMLVideoMap) (G2 : List XMLVideoMaps) (E1 E2 : List XMLElement)
    (el : XMLElement) (a b : Point2LL)
    (hline : el.Type_ = "Line") (hparse : endpoints ParseFloat el = some (a, b)) :
    (allZero el = true →
        mainLoop ParseFloat (bundleAround G1 M1 LongName Group M2 G2 (E1 ++ el :: E2))
          = mainLoop ParseFloat (bundleAround G1 M1 LongName Group M2 G2 (E1 ++ E2)))
      ∧ (allZero el = true → ∀ st, elementStep ParseFloat LongName st el = st)
      ∧ (allZero el = false → ∀ st, elementStep ParseFloat LongName st el
          = { st with segs := some (elems st.segs ++ [a, b]) })
      ∧ (∀ st, (elementStep ParseFloat LongName st el).segs = st.segs ↔ allZero el = true)
      ∧ allZero (lineElement "0.0" "0.0" "0.0" "0.0") = false := by
  have hstep0 : allZero el = true → ∀ st, elementStep ParseFloat LongName st el = st :=
    fun hz st => elementStep_allZero ParseFloat LongName st el hz
  have hstep1 : allZero el = false → ∀ st, elementStep ParseFloat LongName st el
      = { st with segs := some (elems st.segs ++ [a, b]) } := by
    intro hz st
    have hz4 : ¬ (el.StartLon = "0" ∧ el.EndLon = "0" ∧ el.StartLat = "0" ∧ el.EndLat = "0") := by
      intro h4
      rw [(allZero_iff el).2 h4] at hz
      exact Bool.noConfusion hz
    unfold elementStep
    rw [if_neg (by simpa using hline), if_neg hz4]
    unfold endpoints at hparse
    cases h1 : ParseFloat el.StartLon <;> cases h2 : ParseFloat el.StartLat <;>
      cases h3 : ParseFloat el.EndLon <;> cases h4 : ParseFloat el.EndLat <;>
      simp [h1, h2, h3, h4] at hparse ⊢
    obtain ⟨ha, hb⟩ := hparse
    subst ha hb
    cases hs : st.segs <;> simp [append, elems, pointOf]
  refine ⟨?_, hstep0, hstep1, ?_, by decide⟩
  · intro hz
    exact mainLoop_delete_of_step_id ParseFloat G1 M1 LongName Group M2 G2 E1 E2 el (hstep0 hz)
  · intro st
    constructor
    · intro hsegs
      cases hz : allZero el
      · rw [hstep1 hz st] at hsegs
        cases hs : st.segs <;> simp [hs, elems] at hsegs
      · rfl
    · intro hz
      rw [hstep0 hz st]

set_option maxRecDepth 100000 in
/-- C5 at a concrete input: four `0` coordinates parse and the element is
dropped. -/
theorem C5_all_zero_text_dropped_witness :
    (lineElement "0" "0" "0" "0").Type_ = "Line"
      ∧ endpoints decimalParseFloat (lineElement "0" "0" "0" "0")
          = some (⟨F32.fin 0, F32.fin 0⟩, ⟨F32.fin 0, F32.fin 0⟩)
      ∧ allZero (lineElement "0" "0" "0" "0") = true
      ∧ mainLoop decimalParseFloat (bundleAround [] [] "A" "" [] []
            ([lineElement "1" "2" "3" "4"] ++ lineElement "0" "0" "0" "0" :: []))
          = mainLoop decimalParseFloat (bundleAround [] [] "A" "" [] []
            ([lineElement "1" "2" "3" "4"] ++ [])) :=
  ⟨rfl, by decide, by decide,
    (C5_all_zero_text_dropped decimalParseFloat [] [] "A" "" [] []
      [lineElement "1" "2" "3" "4"] [] (lineElement "0" "0" "0" "0")
      ⟨F32.fin 0, F32.fin 0⟩ ⟨F32.fin 0, F32.fin 0⟩ rfl (by decide)).1 (by decide)⟩

/-- C6: an element whose type is not `Line` adds no point and no diagnostic
whatever its coordinates are: its iteration leaves the loop state untouched,
and deleting it leaves the whole output, map and both streams, unchanged. -/
theorem C6_non_line_element_ignored
    (ParseFloat : String → Except String F32)
    (G1 : List XMLVideoMaps) (M1 : List XMLVideoMap) (LongName Group : String)
    (M2 : List XMLVideoMap) (G2 : List XMLVideoMaps) (E1 E2 : List XMLElement)
    (el : XMLElement) (hkind : el.Type_ ≠ "Line") :
    mainLoop ParseFloat (bundleAround G1 M1 LongName Group M2 G2 (E1 ++ el :: E2))
        = mainLoop ParseFloat (bundleAround G1 M1 LongName Group M2 G2 (E1 ++ E2))
      ∧ ∀ st, elementStep ParseFloat LongName st el = st := by
  have hstep : ∀ st, elementStep ParseFloat LongName st el = st :=
    fun st => elementStep_not_line ParseFloat LongName st el hkind
  exact ⟨mainLoop_delete_of_step_id ParseFloat G1 M1 LongName Group M2 G2 E1 E2 el hstep, hstep⟩

set_option maxRecDepth 100000 in
/-- C6 at a concrete input: an `Arc` element with unparseable coordinates. -/
theorem C6_non_line_element_ignored_witness :
    (XMLElement.mk "Arc" "abc" "" "x" "1e").Type_ ≠ "Line"
      ∧ mainLoop decimalParseFloat (bundleAround [] [] "A" "" [] []
            ([lineElement "1" "2" "3" "4"] ++ XMLElement.mk "Arc" "abc" "" "x" "1e" :: []))
          = mainLoop decimalParseFloat (bundleAround [] [] "A" "" [] []
            ([lineElement "1" "2" "3" "4"] ++ [])) :=
  ⟨by decide,
    (C6_non_line_element_ignored decimalParseFloat [] [] "A" "" [] []
      [lineElement "1" "2" "3" "4"] [] (XMLElement.mk "Arc" "abc" "" "x" "1e") (by decide)).1⟩

/-! ## Rounding to the binary32 grid: lemmas -/

theorem ulpShift_lt (f q : Nat) (h : q < 2 ^ f * 2 ^ 24) :
    q / 2 ^ ulpShift f q < 2 ^ 24 := by
  induction f generalizing q with
  | zero => simpa [ulpShift] using h
  | succ f ih =>
    unfold ulpShift
    split
    · rename_i hq; simpa using hq
    · have h2 : q / 2 < 2 ^ f * 2 ^ 24 := by
        rw [Nat.div_lt_iff_lt_mul (by norm_num)]
        calc q < 2 ^ (f + 1) * 2 ^ 24 := h
          _ = 2 ^ f * 2 ^ 24 * 2 := by ring
      have := ih (q / 2) h2
      rwa [pow_succ, Nat.mul_comm, ← Nat.div_div_eq_div_mul]

theorem ulpShift_le_of (f q t : Nat) (h : q / 2 ^ t < 2 ^ 24) : ulpShift f q ≤ t := by
  induction f generalizing q t with
  | zero => simp [ulpShift]
  | succ f ih =>
    unfold ulpShift
    split
    · exact Nat.zero_le _
    · rename_i hq
      cases t with
      | zero => simp at h; exact absurd h hq
      | succ t =>
        have : q / 2 / 2 ^ t < 2 ^ 24 := by
          rwa [Nat.div_div_eq_div_mul, Nat.mul_comm, ← pow_succ]
        exact Nat.succ_le_succ (ih (q / 2) t this)

theorem ulpShift_self_lt (q : Nat) : q / 2 ^ ulpShift q q < 2 ^ 24 := by
  apply ulpShift_lt
  calc q < 2 ^ q := Nat.lt_two_pow q
    _ ≤ 2 ^ q * 2 ^ 24 := Nat.le_mul_of_pos_right _ (by positivity)

theorem ulpShift_lower (f q : Nat) (hs : 0 < ulpShift f q) :
    2 ^ 23 * 2 ^ ulpShift f q ≤ q := by
  by_contra hlt
  have hlt : q < 2 ^ 23 * 2 ^ ulpShift f q := Nat.lt_of_not_le hlt
  obtain ⟨s, hs'⟩ : ∃ s, ulpShift f q = s + 1 := ⟨ulpShift f q - 1, by omega⟩
  rw [hs'] at hlt
  have : q / 2 ^ s < 2 ^ 24 := by
    rw [Nat.div_lt_iff_lt_mul (by positivity)]
    calc q < 2 ^ 23 * 2 ^ (s + 1) := hlt
      _ = 2 ^ 24 * 2 ^ s := by ring
  have := ulpShift_le_of f q s this
  omega

theorem roundHalfEven_ge (a d : Nat) : a / d ≤ roundHalfEven a d := by
  unfold roundHalfEven
  simp only
  split_ifs <;> omega

theorem roundHalfEven_le (a d : Nat) : roundHalfEven a d ≤ a / d + 1 := by
  unfold roundHalfEven
  simp only
  split_ifs <;> omega

theorem roundHalfEven_mono (a a' d : Nat) (h : a ≤ a') :
    roundHalfEven a d ≤ roundHalfEven a' d := by
  have hf : a / d ≤ a' / d := Nat.div_le_div_right h
  rcases Nat.lt_or_eq_of_le hf with hlt | heq
  · calc roundHalfEven a d ≤ a / d + 1 := roundHalfEven_le a d
      _ ≤ a' / d := hlt
      _ ≤ roundHalfEven a' d := roundHalfEven_ge a' d
  · have hr : a % d ≤ a' % d := by
      have h1 := Nat.div_add_mod a d
      have h2 := Nat.div_add_mod a' d
      rw [heq] at h1
      omega
    unfold roundHalfEven
    simp only
    rw [heq]
    split_ifs <;> omega

theorem roundHalfEven_of_dvd (a d : Nat) (hd : 0 < d) (h : d ∣ a) :
    roundHalfEven a d = a / d := by
  unfold roundHalfEven
  simp only
  rw [Nat.mod_eq_zero_of_dvd h]
  simp [hd]

theorem roundHalfEven_mul_left (b a d : Nat) (hb : 0 < b) :
    roundHalfEven (b * a) (b * d) = roundHalfEven a d := by
  unfold roundHalfEven
  simp only
  rw [Nat.mul_div_mul_left _ _ hb, Nat.mul_mod_mul_left]
  have e1 : (2 * (b * (a % d)) < b * d) ↔ (2 * (a % d) < d) := by
    rw [show 2 * (b * (a % d)) = b * (2 * (a % d)) by ring]
    exact Nat.mul_lt_mul_left hb
  have e2 : (b * d < 2 * (b * (a % d))) ↔ (d < 2 * (a % d)) := by
    rw [show 2 * (b * (a % d)) = b * (2 * (a % d)) by ring]
    exact Nat.mul_lt_mul_left hb
  simp only [e1, e2]

/-- The rounded magnitude is a significand of at most `2^24` times the unit
in the last place. -/
theorem roundMag_form (a b : Nat) :
    roundMag a b = roundHalfEven a (b * 2 ^ ulpShift (a / b) (a / b))
        * 2 ^ ulpShift (a / b) (a / b)
      ∧ roundHalfEven a (b * 2 ^ ulpShift (a / b) (a / b)) ≤ 2 ^ 24 := by
  refine ⟨rfl, ?_⟩
  have h1 := roundHalfEven_le a (b * 2 ^ ulpShift (a / b) (a / b))
  have h2 := ulpShift_self_lt (a / b)
  rw [Nat.div_div_eq_div_mul] at h2
  omega

theorem roundMag_mono (a a' b : Nat) (h : a ≤ a') :
    roundMag a b ≤ roundMag a' b := by
  have hq : a / b ≤ a' / b := Nat.div_le_div_right h
  have hss : ulpShift (a / b) (a / b) ≤ ulpShift (a' / b) (a' / b) := by
    apply ulpShift_le_of
    exact lt_of_le_of_lt (Nat.div_le_div_right hq) (ulpShift_self_lt (a' / b))
  obtain ⟨e, hR⟩ := roundMag_form a b
  obtain ⟨e', -⟩ := roundMag_form a' b
  rw [e, e']
  generalize hs : ulpShift (a / b) (a / b) = s at hss hR ⊢
  generalize hs' : ulpShift (a' / b) (a' / b) = s' at hss ⊢
  rcases Nat.lt_or_eq_of_le hss with hlt | heq
  · have hlow : 2 ^ 23 * 2 ^ s' ≤ a' / b := by
      have := ulpShift_lower (a' / b) (a' / b) (by omega)
      rwa [hs'] at this
    have hR' : 2 ^ 23 ≤ roundHalfEven a' (b * 2 ^ s') := by
      refine le_trans ?_ (roundHalfEven_ge a' (b * 2 ^ s'))
      rw [← Nat.div_div_eq_div_mul, Nat.le_div_iff_mul_le (by positivity)]
      exact hlow
    obtain ⟨t, rfl⟩ : ∃ t, s' = s + 1 + t := ⟨s' - (s + 1), by omega⟩
    calc roundHalfEven a (b * 2 ^ s) * 2 ^ s ≤ 2 ^ 24 * 2 ^ s := Nat.mul_le_mul_right _ hR
      _ ≤ 2 ^ 24 * 2 ^ s * 2 ^ t := Nat.le_mul_of_pos_right _ (by positivity)
      _ = 2 ^ 23 * 2 ^ (s + 1 + t) := by ring
      _ ≤ roundHalfEven a' (b * 2 ^ (s + 1 + t)) * 2 ^ (s + 1 + t) :=
          Nat.mul_le_mul_right _ hR'
  · subst heq
    exact Nat.mul_le_mul_right _ (roundHalfEven_mono a a' _ h)

theorem roundMag_exact (m k : Nat) (hm : m < 2 ^ 24) :
    roundMag (m * 2 ^ k) 1 = m * 2 ^ k := by
  unfold roundMag
  simp only [Nat.div_one, Nat.one_mul]
  have hs : ulpShift (m * 2 ^ k) (m * 2 ^ k) ≤ k := by
    apply ulpShift_le_of
    rwa [Nat.mul_div_cancel _ (by positivity)]
  have hdvd : 2 ^ ulpShift (m * 2 ^ k) (m * 2 ^ k) ∣ m * 2 ^ k :=
    Dvd.dvd.mul_left (pow_dvd_pow 2 hs) m
  rw [roundHalfEven_of_dvd _ _ (by positivity) hdvd, Nat.div_mul_cancel hdvd]

theorem roundMag_mul_right (x b : Nat) (hb : 0 < b) :
    roundMag (x * b) b = roundMag x 1 := by
  unfold roundMag
  simp only [Nat.div_one, Nat.one_mul, Nat.mul_div_cancel _ hb]
  rw [Nat.mul_comm x b, roundHalfEven_mul_left _ _ _ hb]

theorem roundMag_mod_unit_le (a b : Nat) :
    roundMag a b % unit ≤ unit - 2 ^ 125 := by
  obtain ⟨e, hR⟩ := roundMag_form a b
  rw [e]
  generalize ulpShift (a / b) (a / b) = s at hR ⊢
  generalize roundHalfEven a (b * 2 ^ s) = R at hR ⊢
  unfold unit
  rcases Nat.lt_or_ge s 125 with h1 | h1
  · have hle : R * 2 ^ s ≤ 2 ^ 24 * 2 ^ 124 :=
      Nat.mul_le_mul hR (Nat.pow_le_pow_right (by norm_num) (by omega))
    have : R * 2 ^ s % 2 ^ 149 ≤ R * 2 ^ s := Nat.mod_le _ _
    have h148 : 2 ^ 24 * 2 ^ 124 ≤ 2 ^ 149 - 2 ^ 125 := by norm_num
    omega
  · rcases Nat.lt_or_ge s 149 with h2 | h2
    · obtain ⟨t, ht⟩ : ∃ t, 149 = s + t := ⟨149 - s, by omega⟩
      have hmod : R * 2 ^ s % 2 ^ 149 = 2 ^ s * (R % 2 ^ t) := by
        rw [ht, pow_add, Nat.mul_comm R, Nat.mul_mod_mul_left]
      have hlt : R % 2 ^ t < 2 ^ t := Nat.mod_lt _ (by positivity)
      have hle : 2 ^ s * (R % 2 ^ t) + 2 ^ s ≤ 2 ^ 149 := by
        calc 2 ^ s * (R % 2 ^ t) + 2 ^ s = 2 ^ s * (R % 2 ^ t + 1) := by ring
          _ ≤ 2 ^ s * 2 ^ t := Nat.mul_le_mul_left _ hlt
          _ = 2 ^ 149 := by rw [ht, pow_add]
      have h125 : 2 ^ 125 ≤ 2 ^ s := Nat.pow_le_pow_right (by norm_num) h1
      rw [hmod]
      omega
    · have hdvd : 2 ^ 149 ∣ R * 2 ^ s := Dvd.dvd.mul_left (pow_dvd_pow 2 h2) R
      rw [Nat.mod_eq_zero_of_dvd hdvd]
      exact Nat.zero_le _

/-- A value fixed by rounding whose integer part has more than 24 bits is a
whole number. -/
theorem unit_dvd_of_fixed (n : Nat) (hfix : roundMag n 1 = n) (hbig : 2 ^ 24 ≤ n / unit) :
    unit ∣ n := by
  obtain ⟨e, -⟩ := roundMag_form n 1
  rw [hfix] at e
  simp only [Nat.div_one] at e
  have hs : 149 < ulpShift n n ∨ ulpShift n n ≤ 149 := Nat.lt_or_ge _ _
  rcases hs with hs | hs
  · rw [e]
    exact Dvd.dvd.mul_left (pow_dvd_pow 2 (Nat.le_of_lt hs)) _
  · have h1 := ulpShift_self_lt n
    have h2 : n / 2 ^ 149 ≤ n / 2 ^ ulpShift n n :=
      Nat.div_le_div_left (Nat.pow_le_pow_right (by norm_num) hs) (by positivity)
    unfold unit at hbig
    omega

/-! ## The float operations at finite non-negative values -/

theorem unit_pos : 0 < unit := by unfold unit; positivity

theorem round_false_of_lt (a b : Nat) (h : roundMag a b < overflowBound) :
    F32.round false a b = F32.fin ((roundMag a b : Nat) : Int) := by
  unfold F32.round
  simp only
  rw [if_neg (by omega)]
  simp

theorem ofUnits_natCast (n : Nat) : F32.ofUnits (n : Int) = F32.round false n 1 := by
  unfold F32.ofUnits
  have : ¬ ((n : Int) < 0) := by omega
  simp [this]

theorem overflowBound_eq : overflowBound = 2 ^ 128 * unit := rfl

theorem ofNat_eq (c : Nat) (hc : c < 2 ^ 24) :
    F32.ofNat c = F32.fin ((c * unit : Nat) : Int) := by
  unfold F32.ofNat F32.ofRatio
  have he : roundMag (c * unit) 1 = c * unit := roundMag_exact c 149 hc
  have hlt : roundMag (c * unit) 1 < overflowBound := by
    rw [he, overflowBound_eq]
    exact Nat.mul_lt_mul_of_pos_right (by omega) unit_pos
  rw [round_false_of_lt _ _ hlt, he]

theorem roundMag_le_unit (r : Nat) (hr : r ≤ unit) : roundMag r 1 ≤ unit := by
  have h := roundMag_mono r unit 1 hr
  have he : roundMag unit 1 = unit := by
    have := roundMag_exact 1 149 (by norm_num)
    simpa [unit] using this
  omega

/-- Subtracting the floor, when the floor is a binary32 value. -/
theorem sub_floor_fin (n : Nat) (hfl : roundMag (n / unit * unit) 1 = n / unit * unit)
    (hov : n < overflowBound) :
    F32.sub (F32.fin (n : Int)) (floor (F32.fin (n : Int)))
      = F32.fin ((roundMag (n % unit) 1 : Nat) : Int) := by
  have hle : n / unit * unit ≤ n := Nat.div_mul_le_self n unit
  have hfloor : floor (F32.fin (n : Int)) = F32.fin ((n / unit * unit : Nat) : Int) := by
    show F32.ofUnits ((n : Int) / (unit : Int) * (unit : Int)) = _
    have : (n : Int) / (unit : Int) * (unit : Int) = ((n / unit * unit : Nat) : Int) := by
      push_cast; rfl
    rw [this, ofUnits_natCast, round_false_of_lt _ _ (by omega), hfl]
  rw [hfloor]
  show F32.ofUnits ((n : Int) - ((n / unit * unit : Nat) : Int)) = _
  have hsub : (n : Int) - ((n / unit * unit : Nat) : Int) = ((n % unit : Nat) : Int) := by
    have := Nat.div_add_mod n unit
    have h2 : n / unit * unit = unit * (n / unit) := Nat.mul_comm _ _
    omega
  rw [hsub, ofUnits_natCast]
  have hmod : n % unit ≤ unit := Nat.le_of_lt (Nat.mod_lt _ unit_pos)
  have hlt : roundMag (n % unit) 1 < overflowBound := by
    have := roundMag_le_unit _ hmod
    have : unit < overflowBound := by
      rw [overflowBound_eq]
      calc unit = 1 * unit := (Nat.one_mul _).symm
        _ < 2 ^ 128 * unit := Nat.mul_lt_mul_of_pos_right (by norm_num) unit_pos
    omega
  rw [round_false_of_lt _ _ hlt]

/-- Multiplying a value of at most one by a small integer constant. -/
theorem mul_const_fin (r c : Nat) (hc : c < 2 ^ 24) (hr : r ≤ unit) :
    F32.mul (F32.fin (r : Int)) (F32.ofNat c) = F32.fin ((roundMag (r * c) 1 : Nat) : Int)
      ∧ roundMag (r * c) 1 ≤ c * unit := by
  have hb : roundMag (r * c) 1 ≤ c * unit := by
    have h := roundMag_mono (r * c) (unit * c) 1 (Nat.mul_le_mul_right _ hr)
    have he : roundMag (unit * c) 1 = c * unit := by
      rw [Nat.mul_comm unit c]
      exact roundMag_exact c 149 hc
    omega
  refine ⟨?_, hb⟩
  rw [ofNat_eq c hc]
  unfold F32.mul
  have hsign : ¬ ((r : Int) * ((c * unit : Nat) : Int) < 0) := by
    have : (0 : Int) ≤ (r : Int) * ((c * unit : Nat) : Int) := by positivity
    omega
  simp only [hsign, decide_False, Int.natAbs_ofNat]
  have hre : r * (c * unit) = r * c * unit := by ring
  have hrm : roundMag (r * c * unit) unit = roundMag (r * c) 1 :=
    roundMag_mul_right _ _ unit_pos
  have hlt : roundMag (r * c) 1 < overflowBound := by
    have : c * unit < overflowBound := by
      rw [overflowBound_eq]
      exact Nat.mul_lt_mul_of_pos_right (by omega) unit_pos
    omega
  rw [hre, round_false_of_lt _ _ (by rw [hrm]; exact hlt), hrm]

theorem toInt_fin (archInt : F32 → Int) (n : Nat) (h : n / unit < 2 ^ 63) :
    toInt archInt (F32.fin (n : Int)) = ((n / unit : Nat) : Int) := by
  have ht : Int.tdiv (n : Int) (unit : Int) = ((n / unit : Nat) : Int) := by
    rw [Int.tdiv_eq_ediv (Int.ofNat_nonneg n) (Int.ofNat_nonneg unit)]; rfl
  have h1 : -(2 ^ 63 : Int) ≤ ((n / unit : Nat) : Int) := by
    have : (0 : Int) ≤ ((n / unit : Nat) : Int) := Int.ofNat_nonneg _
    have h63 : (0 : Int) ≤ 2 ^ 63 := by norm_num
    omega
  have h2 : ((n / unit : Nat) : Int) < (2 ^ 63 : Int) := by exact_mod_cast h
  unfold toInt
  simp only []
  rw [ht, if_pos ⟨h1, h2⟩]

theorem abs_fin (x : Int) : abs (F32.fin x) = F32.fin ((x.natAbs : Nat) : Int) := by
  by_cases h : x < 0
  · have e : ((x.natAbs : Nat) : Int) = -x := by omega
    rw [e]
    simp [abs, F32.ltZero, F32.neg, h]
  · have e : ((x.natAbs : Nat) : Int) = x := by omega
    rw [e]
    simp [abs, F32.ltZero, h]

theorem sprintfZeroD_natCast (w n : Nat) : sprintfZeroD w (n : Int) = zeroPad w n := by
  unfold sprintfZeroD
  have : ¬ ((n : Int) < 0) := by omega
  simp [this]

/-- One step of `format` between two fields. -/
theorem format_step (n c : Nat) (hfl : roundMag (n / unit * unit) 1 = n / unit * unit)
    (hov : n < overflowBound) (hc : c < 2 ^ 24) :
    F32.mul (F32.sub (F32.fin (n : Int)) (floor (F32.fin (n : Int)))) (F32.ofNat c)
        = F32.fin ((nextField c n : Nat) : Int)
      ∧ nextField c n ≤ c * unit := by
  rw [sub_floor_fin n hfl hov]
  have hmod : n % unit ≤ unit := Nat.le_of_lt (Nat.mod_lt _ unit_pos)
  exact mul_const_fin _ c hc (roundMag_le_unit _ hmod)

theorem floor_exact_of_small (n : Nat) (h : n / unit < 2 ^ 24) :
    roundMag (n / unit * unit) 1 = n / unit * unit :=
  roundMag_exact (n / unit) 149 h

theorem div_unit_le (n c : Nat) (h : n ≤ c * unit) : n / unit ≤ c := by
  have := Nat.div_le_div_right (c := unit) h
  rwa [Nat.mul_div_cancel _ unit_pos] at this

theorem lt_overflow_of_le (n c : Nat) (hc : c < 2 ^ 24) (h : n ≤ c * unit) :
    n < overflowBound := by
  have : c * unit < overflowBound := by
    rw [overflowBound_eq]
    exact Nat.mul_lt_mul_of_pos_right (by omega) unit_pos
  omega

/-- After a rounded value, the next field stays strictly below its constant. -/
theorem nextField_of_rounded_le (a b c : Nat) :
    nextField c (roundMag a b) ≤ roundMag ((unit - 2 ^ 125) * c) 1 := by
  unfold nextField
  apply roundMag_mono _ _ 1
  apply Nat.mul_le_mul_right
  have h1 := roundMag_mono (roundMag a b % unit) (unit - 2 ^ 125) 1
    (roundMag_mod_unit_le a b)
  have e : unit - 2 ^ 125 = (2 ^ 24 - 1) * 2 ^ 125 := by unfold unit; norm_num
  have he : roundMag (unit - 2 ^ 125) 1 = unit - 2 ^ 125 := by
    rw [e]
    exact roundMag_exact (2 ^ 24 - 1) 125 (by norm_num)
  rw [he] at h1
  exact h1

theorem nextField_sixty_lt (a b : Nat) : nextField 60 (roundMag a b) / unit ≤ 59 := by
  have h := nextField_of_rounded_le a b 60
  have hc : roundMag ((unit - 2 ^ 125) * 60) 1 / unit = 59 := by
    set_option maxRecDepth 100000 in decide
  have := Nat.div_le_div_right (c := unit) h
  omega

theorem nextField_thousand_lt (a b : Nat) : nextField 1000 (roundMag a b) / unit ≤ 999 := by
  have h := nextField_of_rounded_le a b 1000
  have hc : roundMag ((unit - 2 ^ 125) * 1000) 1 / unit = 999 := by
    set_option maxRecDepth 100000 in decide
  have := Nat.div_le_div_right (c := unit) h
  omega

/-- The text `format` produces for a finite non-negative value whose floor is
a binary32 value and whose integer part is an `int`, and the ranges of its
fields. -/
theorem format_fin (archInt : F32 → Int) (n : Nat)
    (hfl : roundMag (n / unit * unit) 1 = n / unit * unit)
    (hint : n / unit < 2 ^ 63) :
    format archInt (F32.fin (n : Int))
        = dmsText (n / unit) (nextField 60 n / unit)
            (nextField 60 (nextField 60 n) / unit)
            (nextField 1000 (nextField 60 (nextField 60 n)) / unit)
      ∧ nextField 60 n / unit ≤ 60
      ∧ nextField 60 (nextField 60 n) / unit ≤ 59
      ∧ nextField 1000 (nextField 60 (nextField 60 n)) / unit ≤ 999 := by
  have hov : n < overflowBound := by
    rw [overflowBound_eq]
    have h1 : n < (n / unit + 1) * unit := by
      have := Nat.div_add_mod n unit
      have := Nat.mod_lt n unit_pos
      have e : (n / unit + 1) * unit = unit * (n / unit) + unit := by ring
      omega
    have h2 : (n / unit + 1) * unit ≤ 2 ^ 128 * unit :=
      Nat.mul_le_mul_right _ (by omega)
    omega
  obtain ⟨e1, b1⟩ := format_step n 60 hfl hov (by norm_num)
  have d1 := div_unit_le _ _ b1
  obtain ⟨e2, b2⟩ := format_step (nextField 60 n) 60
    (floor_exact_of_small _ (by omega)) (lt_overflow_of_le _ 60 (by norm_num) b1) (by norm_num)
  have d2 := div_unit_le _ _ b2
  obtain ⟨e3, b3⟩ := format_step (nextField 60 (nextField 60 n)) 1000
    (floor_exact_of_small _ (by omega)) (lt_overflow_of_le _ 60 (by norm_num) b2) (by norm_num)
  have d3 := div_unit_le _ _ b3
  have s2 : nextField 60 (nextField 60 n) / unit ≤ 59 := by
    have := nextField_sixty_lt (roundMag (n % unit) 1 * 60) 1
    exact this
  have s3 : nextField 1000 (nextField 60 (nextField 60 n)) / unit ≤ 999 := by
    have := nextField_thousand_lt (roundMag (nextField 60 n % unit) 1 * 60) 1
    exact this
  refine ⟨?_, d1, s2, s3⟩
  unfold format dmsText
  simp only [e1, e2, e3]
  rw [toInt_fin archInt n hint, toInt_fin archInt _ (by omega), toInt_fin archInt _ (by omega),
    toInt_fin archInt _ (by omega)]
  simp only [sprintfZeroD_natCast]

/-! ## The printed text: lemmas -/

theorem digitChar_isDigit (k : Nat) (h : k < 10) : (Nat.digitChar k).isDigit = true := by
  have : ∀ j, j < 10 → (Nat.digitChar j).isDigit = true := by decide
  exact this k h

theorem toDigitsCore_isDigit (fuel n : Nat) (ds : List Char)
    (hds : ∀ c ∈ ds, c.isDigit = true) :
    ∀ c ∈ Nat.toDigitsCore 10 fuel n ds, c.isDigit = true := by
  induction fuel generalizing n ds with
  | zero => simpa [Nat.toDigitsCore] using hds
  | succ fuel ih =>
    have hcons : ∀ c ∈ Nat.digitChar (n % 10) :: ds, c.isDigit = true := by
      intro c hc
      rcases List.mem_cons.1 hc with rfl | hc
      · exact digitChar_isDigit _ (Nat.mod_lt _ (by norm_num))
      · exact hds c hc
    unfold Nat.toDigitsCore
    simp only
    split
    · exact hcons
    · exact ih _ _ hcons

theorem repr_isDigit (n : Nat) : ∀ c ∈ (Nat.repr n).data, c.isDigit = true := by
  unfold Nat.repr Nat.toDigits
  exact toDigitsCore_isDigit _ _ [] (by simp)

theorem zeroPad_data (w n : Nat) :
    (zeroPad w n).data
      = List.replicate (w - (Nat.repr n).length) '0' ++ (Nat.repr n).data := rfl

theorem zeroPad_isDigit (w n : Nat) : ∀ c ∈ (zeroPad w n).data, c.isDigit = true := by
  intro c hc
  rw [zeroPad_data, List.mem_append] at hc
  rcases hc with hc | hc
  · rw [(List.mem_replicate.1 hc).2]; decide
  · exact repr_isDigit n c hc

theorem zeroPad_length (w n : Nat) (hw : 0 < w) (h : n < 10 ^ w) :
    (zeroPad w n).data.length = w := by
  have hl : (Nat.repr n).data.length ≤ w := Nat.repr_length n w hw h
  rw [zeroPad_data, List.length_append, List.length_replicate]
  have : (Nat.repr n).length = (Nat.repr n).data.length := rfl
  omega

theorem sprintfZeroD_chars (w : Nat) (i : Int) :
    ∀ c ∈ (sprintfZeroD w i).data, c.isDigit = true ∨ c = '-' := by
  intro c hc
  unfold sprintfZeroD at hc
  split at hc
  · rw [String.data_append, List.mem_append] at hc
    rcases hc with hc | hc
    · right
      simpa using hc
    · exact Or.inl (zeroPad_isDigit _ _ c hc)
  · exact Or.inl (zeroPad_isDigit _ _ c hc)

theorem format_data (archInt : F32 → Int) (v : F32) :
    ∃ i1 i2 i3 i4 : Int,
      format archInt v = sprintfZeroD 3 i1 ++ ("." ++ sprintfZeroD 2 i2)
        ++ ("." ++ sprintfZeroD 2 i3) ++ ("." ++ sprintfZeroD 3 i4) :=
  ⟨_, _, _, _, rfl⟩

theorem format_chars (archInt : F32 → Int) (v : F32) :
    ∀ c ∈ (format archInt v).data, c.isDigit = true ∨ c = '.' ∨ c = '-' := by
  obtain ⟨i1, i2, i3, i4, e⟩ := format_data archInt v
  rw [e]
  intro c hc
  simp only [String.data_append, List.mem_append] at hc
  have hdot : ∀ c ∈ (".": String).data, c = '.' := by
    intro c hc
    simpa using hc
  rcases hc with ((hc | hc | hc) | hc | hc) | hc | hc
  · rcases sprintfZeroD_chars _ _ c hc with h | h
    · exact Or.inl h
    · exact Or.inr (Or.inr h)
  · exact Or.inr (Or.inl (hdot c hc))
  · rcases sprintfZeroD_chars _ _ c hc with h | h
    · exact Or.inl h
    · exact Or.inr (Or.inr h)
  · exact Or.inr (Or.inl (hdot c hc))
  · rcases sprintfZeroD_chars _ _ c hc with h | h
    · exact Or.inl h
    · exact Or.inr (Or.inr h)
  · exact Or.inr (Or.inl (hdot c hc))
  · rcases sprintfZeroD_chars _ _ c hc with h | h
    · exact Or.inl h
    · exact Or.inr (Or.inr h)

theorem dmsText_chars (d m s k : Nat) :
    ∀ c ∈ (dmsText d m s k).data, c.isDigit = true ∨ c = '.' := by
  intro c hc
  unfold dmsText at hc
  simp only [String.data_append, List.mem_append] at hc
  have hdot : ∀ c ∈ (".": String).data, c = '.' := by
    intro c hc
    simpa using hc
  rcases hc with ((hc | hc | hc) | hc | hc) | hc | hc
  · exact Or.inl (zeroPad_isDigit _ _ c hc)
  · exact Or.inr (hdot c hc)
  · exact Or.inl (zeroPad_isDigit _ _ c hc)
  · exact Or.inr (hdot c hc)
  · exact Or.inl (zeroPad_isDigit _ _ c hc)
  · exact Or.inr (hdot c hc)
  · exact Or.inl (zeroPad_isDigit _ _ c hc)

theorem dmsText_fixedForm (d m s k : Nat) (hd : d < 1000) (hm : m < 100) (hs : s < 100)
    (hk : k < 1000) : fixedForm (dmsText d m s k) = true := by
  have l1 := zeroPad_length 3 d (by norm_num) (by norm_num; exact hd)
  have l2 := zeroPad_length 2 m (by norm_num) (by norm_num; exact hm)
  have l3 := zeroPad_length 2 s (by norm_num) (by norm_num; exact hs)
  have l4 := zeroPad_length 3 k (by norm_num) (by norm_num; exact hk)
  have c1 := zeroPad_isDigit 3 d
  have c2 := zeroPad_isDigit 2 m
  have c3 := zeroPad_isDigit 2 s
  have c4 := zeroPad_isDigit 3 k
  have e : (dmsText d m s k).data
      = (zeroPad 3 d).data ++ '.' :: ((zeroPad 2 m).data ++ '.' :: ((zeroPad 2 s).data
          ++ '.' :: (zeroPad 3 k).data)) := by
    unfold dmsText
    simp only [String.data_append, List.append_assoc]
    rfl
  unfold fixedForm
  rw [e]
  generalize (zeroPad 3 d).data = A at *
  generalize (zeroPad 2 m).data = B at *
  generalize (zeroPad 2 s).data = C at *
  generalize (zeroPad 3 k).data = D at *
  obtain ⟨a1, a2, a3, rfl⟩ := List.length_eq_three.1 l1
  obtain ⟨b1, b2, rfl⟩ := List.length_eq_two.1 l2
  obtain ⟨c1', c2', rfl⟩ := List.length_eq_two.1 l3
  obtain ⟨d1, d2, d3, rfl⟩ := List.length_eq_three.1 l4
  simp only [List.mem_cons, List.mem_singleton, forall_eq_or_imp, forall_eq,
    List.not_mem_nil, false_implies, implies_true, and_true] at c1 c2 c3 c4
  simp [c1, c2, c3, c4]

theorem fixedForm_length (s : String) (h : fixedForm s = true) : s.length = 13 := by
  unfold fixedForm at h
  split at h
  · rename_i heq
    show s.data.length = 13
    rw [heq]; rfl
  · exact Bool.noConfusion h

/-! ## Reading a JSON string literal: lemmas -/

theorem foldl_jsonStep_plain (cs acc : List Char) (h : ∀ c ∈ cs, plainChar c) :
    cs.foldl jsonStep (JsonState.body acc) = JsonState.body (acc ++ cs) := by
  induction cs generalizing acc with
  | nil => simp
  | cons c cs ih =>
    obtain ⟨h1, h2, h3⟩ := h c (List.mem_cons_self _ _)
    rw [List.foldl_cons]
    have : jsonStep (JsonState.body acc) c = JsonState.body (acc ++ [c]) := by
      simp [jsonStep, h1, h2, h3]
    rw [this, ih _ (fun d hd => h d (List.mem_cons_of_mem _ hd))]
    simp

theorem jsonDecodeString_quote (s : String) (h : ∀ c ∈ s.data, plainChar c) :
    jsonDecodeString ("\"" ++ s ++ "\"") = some s := by
  unfold jsonDecodeString
  have e : ("\"" ++ s ++ "\"").data = '"' :: (s.data ++ ['"']) := by
    simp only [String.data_append]
    rfl
  rw [e, List.foldl_cons, List.foldl_append]
  have h0 : jsonStep JsonState.start '"' = JsonState.body [] := by simp [jsonStep]
  rw [h0, foldl_jsonStep_plain _ _ h]
  simp [jsonStep]

theorem plainChar_of_token (c : Char) (h : tokenChar c = true ∨ c = '-') : plainChar c := by
  have hd : c.isDigit = true → plainChar c := by
    intro hdig
    simp only [Char.isDigit, Bool.and_eq_true, decide_eq_true_eq] at hdig
    obtain ⟨h48, h57⟩ := hdig
    have h48' : 48 ≤ c.toNat := by exact_mod_cast h48
    have h57' : c.toNat ≤ 57 := by exact_mod_cast h57
    refine ⟨?_, ?_, by omega⟩
    · rintro rfl; revert h48'; decide
    · rintro rfl; revert h57'; decide
  rcases h with h | rfl
  · simp only [tokenChar, Bool.or_eq_true, beq_iff_eq] at h
    rcases h with (((((rfl | rfl) | rfl) | rfl) | h) | rfl) | rfl
    · exact ⟨by decide, by decide, by decide⟩
    · exact ⟨by decide, by decide, by decide⟩
    · exact ⟨by decide, by decide, by decide⟩
    · exact ⟨by decide, by decide, by decide⟩
    · exact hd h
    · exact ⟨by decide, by decide, by decide⟩
    · exact ⟨by decide, by decide, by decide⟩
  · exact ⟨by decide, by decide, by decide⟩

/-! ## Claims about the DMS rendering -/

theorem DMSString_eq (archInt : F32 → Int) (p : Point2LL) :
    p.DMSString archInt
      = (if (p.index 1).gtZero then "N" else "S") ++ format archInt (abs (p.index 1))
          ++ "," ++ (if (p.index 0).gtZero then "E" else "W")
          ++ format archInt (abs (p.index 0)) := by
  have eE : (",E" : String) = "," ++ "E" := by decide
  have eW : (",W" : String) = "," ++ "W" := by decide
  unfold Point2LL.DMSString
  cases h : (p.index 0).gtZero <;> simp [eE, eW, String.append_assoc]

theorem gtZero_false_of_ltZero (v : F32) (h : v.ltZero = true) : v.gtZero = false := by
  cases v with
  | fin n =>
    simp only [F32.ltZero, decide_eq_true_eq] at h
    simp only [F32.gtZero, decide_eq_false_iff_not]
    omega
  | inf neg =>
    simp only [F32.ltZero] at h
    simp [F32.gtZero, h]
  | nan => rfl

set_option maxRecDepth 100000 in
/-- C7: the point with longitude -75.274864 and latitude 39.860901, each
rounded to the nearest 32-bit float, renders as
`N039.51.39.243,W075.16.29.511`; the latitude digits are `039.51.39.243` and
the longitude digits are `075.16.29.511`. -/
theorem C7_dms_string_example (archInt : F32 → Int) :
    Point2LL.DMSString archInt
        ⟨F32.ofRatio true 75274864 1000000, F32.ofRatio false 39860901 1000000⟩
        = "N039.51.39.243,W075.16.29.511"
      ∧ "N" ++ format archInt (abs (F32.ofRatio false 39860901 1000000)) = "N039.51.39.243"
      ∧ "W" ++ format archInt (abs (F32.ofRatio true 75274864 1000000)) = "W075.16.29.511" :=
  ⟨Eq.trans (by rfl : _ = Point2LL.DMSString amd64Int
      ⟨F32.ofRatio true 75274864 1000000, F32.ofRatio false 39860901 1000000⟩) (by decide),
   Eq.trans (by rfl : _ = "N" ++ format amd64Int (abs (F32.ofRatio false 39860901 1000000)))
      (by decide),
   Eq.trans (by rfl : _ = "W" ++ format amd64Int (abs (F32.ofRatio true 75274864 1000000)))
      (by decide)⟩

/-- C8: for every point the token is the latitude component, a comma, then
the longitude component; the latitude component begins with `N` when the
latitude is positive and `S` when it is negative, the longitude component
with `E` when the longitude is positive and `W` when it is negative, and what
follows each letter is the formatted magnitude of that coordinate. -/
theorem C8_latitude_first_and_hemisphere_letters (archInt : F32 → Int) (p : Point2LL) :
    ∃ latLetter lonLetter : String,
      p.DMSString archInt
          = (latLetter ++ format archInt (abs (p.index 1))) ++ ","
              ++ (lonLetter ++ format archInt (abs (p.index 0)))
        ∧ ((p.index 1).gtZero = true → latLetter = "N")
        ∧ ((p.index 1).ltZero = true → latLetter = "S")
        ∧ ((p.index 0).gtZero = true → lonLetter = "E")
        ∧ ((p.index 0).ltZero = true → lonLetter = "W") := by
  refine ⟨if (p.index 1).gtZero then "N" else "S", if (p.index 0).gtZero then "E" else "W",
    ?_, ?_, ?_, ?_, ?_⟩
  · rw [DMSString_eq]
    simp only [String.append_assoc]
  · intro h; rw [if_pos h]
  · intro h; rw [gtZero_false_of_ltZero _ h]; rfl
  · intro h; rw [if_pos h]
  · intro h; rw [gtZero_false_of_ltZero _ h]; rfl

set_option maxRecDepth 100000 in
/-- C9, as stated, fails: a latitude of 1000 has a four-digit degrees
component, its per-axis string has 14 characters and the token has 30. -/
theorem C9_counterexample_thousand_degrees :
    format amd64Int (abs (F32.ofRatio false 1000 1)) = "1000.00.00.000"
      ∧ (format amd64Int (abs (F32.ofRatio false 1000 1))).length = 14
      ∧ (Point2LL.DMSString amd64Int
          ⟨F32.ofRatio false 1 1, F32.ofRatio false 1000 1⟩).length = 30 := by
  decide

theorem format_abs_fixedForm (archInt : F32 → Int) (x : Int)
    (hx : x.natAbs < 1000 * unit) : fixedForm (format archInt (abs (F32.fin x))) = true := by
  rw [abs_fin]
  have hd : x.natAbs / unit < 1000 := by
    rw [Nat.div_lt_iff_lt_mul unit_pos]; exact hx
  obtain ⟨e, b1, b2, b3⟩ := format_fin archInt x.natAbs
    (floor_exact_of_small _ (by omega)) (by omega)
  rw [e]
  exact dmsText_fixedForm _ _ _ _ hd (by omega) (by omega) (by omega)

/-- C9, amended: for every finite coordinate of magnitude below 1000 the
degrees component is exactly three zero-padded digits, each per-axis string
has the fixed form `ddd.mm.ss.mmm` of 13 characters, and the token has
exactly 29 characters. -/
theorem C9_fixed_width_below_thousand (archInt : F32 → Int) (x y : Int)
    (hx : x.natAbs < 1000 * unit) (hy : y.natAbs < 1000 * unit) :
    fixedForm (format archInt (abs (F32.fin y))) = true
      ∧ fixedForm (format archInt (abs (F32.fin x))) = true
      ∧ (format archInt (abs (F32.fin y))).length = 13
      ∧ (format archInt (abs (F32.fin x))).length = 13
      ∧ (Point2LL.DMSString archInt ⟨F32.fin x, F32.fin y⟩).length = 29 := by
  have fy := format_abs_fixedForm archInt y hy
  have fx := format_abs_fixedForm archInt x hx
  have ly := fixedForm_length _ fy
  have lx := fixedForm_length _ fx
  refine ⟨fy, fx, ly, lx, ?_⟩
  rw [DMSString_eq]
  simp only [String.length_append, Point2LL.index]
  rw [ly, lx]
  have h1 : (if (F32.fin y).gtZero = true then "N" else "S").length = 1 := by
    split <;> rfl
  have h2 : (if (F32.fin x).gtZero = true then "E" else "W").length = 1 := by
    split <;> rfl
  rw [h1, h2]
  rfl

set_option maxRecDepth 100000 in
/-- C9 amended, at the coordinates of the running example. -/
theorem C9_fixed_width_below_thousand_witness :
    (-(9866427 * 2 ^ 132) : Int).natAbs < 1000 * unit
      ∧ (653081 * 2 ^ 135 : Int).natAbs < 1000 * unit
      ∧ (Point2LL.DMSString amd64Int
          ⟨F32.fin (-(9866427 * 2 ^ 132)), F32.fin (653081 * 2 ^ 135)⟩).length = 29 :=
  ⟨by decide, by decide,
    (C9_fixed_width_below_thousand amd64Int (-(9866427 * 2 ^ 132)) (653081 * 2 ^ 135)
      (by decide) (by decide)).2.2.2.2⟩

theorem isValue_fin (x : Int) (h : (F32.fin x).isValue = true) :
    roundMag x.natAbs 1 = x.natAbs ∧ x.natAbs < overflowBound := by
  simp only [F32.isValue, decide_eq_true_eq] at h
  unfold F32.ofUnits F32.round at h
  simp only at h
  split at h
  · exact F32.noConfusion h
  · rename_i hov
    split at h
    · have := F32.fin.inj h
      constructor <;> omega
    · have := F32.fin.inj h
      constructor <;> omega

theorem format_abs_digits (archInt : F32 → Int) (x : Int)
    (hv : (F32.fin x).isValue = true) (hr : x.natAbs / unit < 2 ^ 63) :
    ∀ c ∈ (format archInt (abs (F32.fin x))).data, c.isDigit = true ∨ c = '.' := by
  obtain ⟨hfix, -⟩ := isValue_fin x hv
  rw [abs_fin]
  have hfl : roundMag (x.natAbs / unit * unit) 1 = x.natAbs / unit * unit := by
    rcases Nat.lt_or_ge (x.natAbs / unit) (2 ^ 24) with h | h
    · exact floor_exact_of_small _ h
    · rw [Nat.div_mul_cancel (unit_dvd_of_fixed _ hfix h)]
      exact hfix
  obtain ⟨e, -⟩ := format_fin archInt x.natAbs hfl hr
  rw [e]
  exact dmsText_chars _ _ _ _

theorem DMSString_chars (archInt : F32 → Int) (p : Point2LL) (P : Char → Prop)
    (hlat : ∀ c ∈ (format archInt (abs (p.index 1))).data, P c)
    (hlon : ∀ c ∈ (format archInt (abs (p.index 0))).data, P c)
    (hN : P 'N') (hS : P 'S') (hE : P 'E') (hW : P 'W') (hcomma : P ',') :
    ∀ c ∈ (p.DMSString archInt).data, P c := by
  intro c hc
  rw [DMSString_eq] at hc
  simp only [String.data_append, List.mem_append] at hc
  rcases hc with (((hc | hc) | hc) | hc) | hc
  · split at hc
    · have : c = 'N' := by simpa using hc
      rw [this]; exact hN
    · have : c = 'S' := by simpa using hc
      rw [this]; exact hS
  · exact hlat c hc
  · have : c = ',' := by simpa using hc
    rw [this]; exact hcomma
  · split at hc
    · have : c = 'E' := by simpa using hc
      rw [this]; exact hE
    · have : c = 'W' := by simpa using hc
      rw [this]; exact hW
  · exact hlon c hc

theorem tokenChar_of_digit_or_dot (c : Char) (h : c.isDigit = true ∨ c = '.') :
    tokenChar c = true := by
  rcases h with h | rfl
  · simp [tokenChar, h]
  · decide

set_option maxRecDepth 100000 in
/-- C10, as stated, fails in its account of the characters: a latitude of
`1e30` is a 32-bit float outside the `int` range, amd64 converts it to
`-2^63`, and the token then holds a minus sign. -/
theorem C10_counterexample_minus_sign :
    '-' ∈ (Point2LL.DMSString amd64Int
        ⟨F32.ofRatio false 1 1, F32.ofRatio false (10 ^ 30) 1⟩).data
      ∧ tokenChar '-' = false
      ∧ (F32.ofRatio false (10 ^ 30) 1).isValue = true := by
  decide

/-- C10, amended: for every point `MarshalJSON` returns no error and exactly a
double quote, the DMS token and a double quote; the token consists only of the
letters N, S, E, W, decimal digits, `.`, `,` and possibly `-`, so these bytes
are a JSON string literal that decodes back to exactly the token; and when
both coordinates are finite 32-bit floats whose magnitude is in the `int`
range there is no `-`. -/
theorem C10_marshal_json_is_quoted_token (archInt : F32 → Int) (p : Point2LL) :
    p.MarshalJSON archInt = ("\"" ++ p.DMSString archInt ++ "\"", none)
      ∧ (∀ c ∈ (p.DMSString archInt).data, tokenChar c = true ∨ c = '-')
      ∧ jsonDecodeString (p.MarshalJSON archInt).1 = some (p.DMSString archInt)
      ∧ (∀ x y : Int, p = ⟨F32.fin x, F32.fin y⟩ →
          (F32.fin x).isValue = true → (F32.fin y).isValue = true →
          x.natAbs / unit < 2 ^ 63 → y.natAbs / unit < 2 ^ 63 →
          ∀ c ∈ (p.DMSString archInt).data, tokenChar c = true) := by
  have hfmt : ∀ v, ∀ c ∈ (format archInt v).data, tokenChar c = true ∨ c = '-' := by
    intro v c hc
    rcases format_chars archInt v c hc with h | h | h
    · exact Or.inl (tokenChar_of_digit_or_dot c (Or.inl h))
    · exact Or.inl (tokenChar_of_digit_or_dot c (Or.inr h))
    · exact Or.inr h
  have hchars : ∀ c ∈ (p.DMSString archInt).data, tokenChar c = true ∨ c = '-' :=
    DMSString_chars archInt p (fun c => tokenChar c = true ∨ c = '-')
      (hfmt _) (hfmt _) (Or.inl (by decide)) (Or.inl (by decide)) (Or.inl (by decide))
      (Or.inl (by decide)) (Or.inl (by decide))
  refine ⟨rfl, hchars, ?_, ?_⟩
  · show jsonDecodeString ("\"" ++ p.DMSString archInt ++ "\"") = _
    exact jsonDecodeString_quote _ (fun c hc => plainChar_of_token c (hchars c hc))
  · intro x y hp hvx hvy hrx hry
    subst hp
    exact DMSString_chars archInt _ (fun c => tokenChar c = true)
      (fun c hc => tokenChar_of_digit_or_dot c (format_abs_digits archInt y hvy hry c hc))
      (fun c hc => tokenChar_of_digit_or_dot c (format_abs_digits archInt x hvx hrx c hc))
      (by decide) (by decide) (by decide) (by decide) (by decide)

/-! ## Progress lines, stored values and duplicate names -/

section Streams

variable (ParseFloat : String → Except String F32)

theorem processVideoMap_stdout (out : Output) (videomap : XMLVideoMap) :
    (processVideoMap ParseFloat out videomap).stdout
      = out.stdout ++
        (if retainedCount ParseFloat videomap.Elements = 0 then []
         else [progressMessage videomap.LongName
            (2 * retainedCount ParseFloat videomap.Elements)]) := by
  unfold processVideoMap
  have h := extractSegs_segs ParseFloat videomap.LongName videomap.Elements out.stderr
  by_cases h0 : retainedCount ParseFloat videomap.Elements = 0
  · rw [if_pos h0] at h ⊢
    simp only [h, List.append_nil]
  · rw [if_neg h0] at h ⊢
    simp only [h, len, retainedPoints_length]

theorem foldl_processVideoMap_stdout (maps : List XMLVideoMap) (out : Output) :
    (maps.foldl (processVideoMap ParseFloat) out).stdout
      = out.stdout ++ maps.filterMap (fun videomap =>
          if retainedCount ParseFloat videomap.Elements = 0 then none
          else some (progressMessage videomap.LongName
            (2 * retainedCount ParseFloat videomap.Elements))) := by
  induction maps generalizing out with
  | nil => simp
  | cons vm maps ih =>
    rw [List.foldl_cons, ih, processVideoMap_stdout, List.filterMap_cons]
    by_cases h0 : retainedCount ParseFloat vm.Elements = 0
    · simp [h0]
    · simp [h0]

/-- The stored value under a name is that of the last map of the name with a
retained segment, and the earlier value when there is none. -/
theorem foldl_processVideoMap_m_last (name : String) (maps : List XMLVideoMap)
    (out : Output) :
    (maps.foldl (processVideoMap ParseFloat) out).m name
      = match (maps.filter (fun videomap => videomap.LongName == name
            && decide (0 < retainedCount ParseFloat videomap.Elements))).getLast? with
        | some videomap => some (retainedPoints ParseFloat videomap.Elements)
        | none => out.m name := by
  induction maps using List.reverseRecOn with
  | nil => simp
  | append_singleton maps vm ih =>
    rw [List.foldl_append, List.foldl_cons, List.foldl_nil, processVideoMap_m,
      List.filter_append]
    by_cases h0 : retainedCount ParseFloat vm.Elements = 0
    · rw [if_pos h0, ih]
      simp [List.filter_cons, h0]
    · rw [if_neg h0]
      by_cases hk : name = vm.LongName
      · subst hk
        simp [List.filter_cons, Nat.pos_of_ne_zero h0]
      · have hk' : ¬ vm.LongName = name := fun h => hk h.symm
        simp only [hk, if_false]
        rw [ih]
        simp [List.filter_cons, hk']

theorem mainLoop_m_eq_last (root : XMLFacilityBundle) (name : String) :
    (mainLoop ParseFloat root).m name
      = (lastRetainedNamed ParseFloat root name).map
          (fun videomap => retainedPoints ParseFloat videomap.Elements) := by
  rw [mainLoop_eq_foldl, foldl_processVideoMap_m_last]
  unfold lastRetainedNamed
  cases h : ((allMaps root).filter (fun videomap => videomap.LongName == name
      && decide (0 < retainedCount ParseFloat videomap.Elements))).getLast? with
  | none => simp [emptyOutput]
  | some vm => simp

theorem lastRetainedNamed_spec (root : XMLFacilityBundle) (name : String)
    (videomap : XMLVideoMap) (h : lastRetainedNamed ParseFloat root name = some videomap) :
    videomap ∈ allMaps root ∧ videomap.LongName = name
      ∧ 0 < retainedCount ParseFloat videomap.Elements := by
  unfold lastRetainedNamed at h
  have hmem := List.mem_of_getLast?_eq_some h
  rw [List.mem_filter] at hmem
  obtain ⟨h1, h2⟩ := hmem
  simp only [Bool.and_eq_true, beq_iff_eq, decide_eq_true_eq] at h2
  exact ⟨h1, h2.1, h2.2⟩

end Streams

/-- C11: the progress line of an included map carries the map's name, but the
number it prints is `len(segs)`, the number of points, that is twice the
number of retained `Line` elements: a map with one retained `Line` is
reported with 2 line segments, where the statement says 1. -/
theorem C11_progress_line_prints_point_count
    (ParseFloat : String → Except String F32) (root : XMLFacilityBundle) :
    (mainLoop ParseFloat root).stdout
        = (allMaps root).filterMap (fun videomap =>
            if retainedCount ParseFloat videomap.Elements = 0 then none
            else some (progressMessage videomap.LongName
              (2 * retainedCount ParseFloat videomap.Elements)))
      ∧ retainedCount decimalParseFloat [lineElement "1" "2" "3" "4"] = 1
      ∧ (mainLoop decimalParseFloat oneSegment).stdout
          = ["Video map: \"A\" with 2 line segments\n"] := by
  refine ⟨?_, by set_option maxRecDepth 100000 in decide,
    by set_option maxRecDepth 100000 in decide⟩
  rw [mainLoop_eq_foldl, foldl_processVideoMap_stdout]
  simp [emptyOutput]

/-- C12: every value stored in the output map has even length, at least 2. -/
theorem C12_stored_values_even_and_nonempty
    (ParseFloat : String → Except String F32) (root : XMLFacilityBundle)
    (name : String) (l : List Point2LL)
    (hstored : (mainLoop ParseFloat root).m name = some l) :
    l.length % 2 = 0 ∧ 2 ≤ l.length := by
  rw [mainLoop_m_eq_last] at hstored
  cases hlast : lastRetainedNamed ParseFloat root name with
  | none => rw [hlast] at hstored; exact Option.noConfusion hstored
  | some vm =>
    rw [hlast] at hstored
    have hl : l = retainedPoints ParseFloat vm.Elements := (Option.some.inj hstored).symm
    obtain ⟨-, -, hpos⟩ := lastRetainedNamed_spec ParseFloat root name vm hlast
    have hlen := retainedPoints_length ParseFloat vm.Elements
    rw [hl]
    omega

set_option maxRecDepth 100000 in
/-- C12 at a concrete input: the value stored under `X` has four points. -/
theorem C12_stored_values_even_and_nonempty_witness :
    (mainLoop decimalParseFloat duplicateNames).m "X"
        = some (retainedPoints decimalParseFloat secondMapX.Elements)
      ∧ (retainedPoints decimalParseFloat secondMapX.Elements).length % 2 = 0
      ∧ 2 ≤ (retainedPoints decimalParseFloat secondMapX.Elements).length :=
  ⟨by decide,
    C12_stored_values_even_and_nonempty decimalParseFloat duplicateNames "X"
      (retainedPoints decimalParseFloat secondMapX.Elements) (by decide)⟩

/-- C18: when several video maps share a name, the value stored under the
name is the point sequence of the last of them, in document order across all
groups, that has a retained segment; a map without retained segments leaves
the entry as it was, and an earlier map of the name is overwritten. -/
theorem C18_last_retained_map_of_a_name_wins
    (ParseFloat : String → Except String F32) (root : XMLFacilityBundle) (name : String) :
    (mainLoop ParseFloat root).m name
        = (lastRetainedNamed ParseFloat root name).map
            (fun videomap => retainedPoints ParseFloat videomap.Elements)
      ∧ (∀ out videomap, retainedCount ParseFloat videomap.Elements = 0 →
          (processVideoMap ParseFloat out videomap).m = out.m)
      ∧ (∀ out videomap, 0 < retainedCount ParseFloat videomap.Elements →
          (processVideoMap ParseFloat out videomap).m videomap.LongName
            = some (retainedPoints ParseFloat videomap.Elements))
      ∧ (mainLoop decimalParseFloat duplicateNames).m "X"
          = some (retainedPoints decimalParseFloat secondMapX.Elements) := by
  refine ⟨mainLoop_m_eq_last ParseFloat root name, ?_, ?_, ?_⟩
  · intro out videomap h0
    rw [processVideoMap_m, if_pos h0]
  · intro out videomap hpos
    rw [processVideoMap_m, if_neg (by omega)]
    simp
  · set_option maxRecDepth 100000 in decide

/-! ## Diagnostics -/

section Diagnostics

variable (ParseFloat : String → Except String F32)

theorem firstParseError_isSome (el : XMLElement) :
    (firstParseError ParseFloat el).isSome = (endpoints ParseFloat el).isNone := by
  unfold firstParseError endpoints
  cases h1 : ParseFloat el.StartLon <;> cases h2 : ParseFloat el.StartLat <;>
    cases h3 : ParseFloat el.EndLon <;> cases h4 : ParseFloat el.EndLat <;> simp

theorem elementStep_stderr (LongName : String) (st : SegState) (el : XMLElement) :
    (elementStep ParseFloat LongName st el).stderr
      = st.stderr ++ (diagnosticOf ParseFloat LongName el).toList := by
  unfold diagnosticOf diagnosed
  by_cases hline : el.Type_ = "Line"
  · cases hz : allZero el
    · have hz4 : ¬ (el.StartLon = "0" ∧ el.EndLon = "0" ∧ el.StartLat = "0"
          ∧ el.EndLat = "0") := by
        intro h4
        rw [(allZero_iff el).2 h4] at hz
        exact Bool.noConfusion hz
      unfold elementStep
      rw [if_neg (by simpa using hline), if_neg hz4]
      unfold firstParseError endpoints
      cases h1 : ParseFloat el.StartLon <;> cases h2 : ParseFloat el.StartLat <;>
        cases h3 : ParseFloat el.EndLon <;> cases h4 : ParseFloat el.EndLat <;>
        simp [hline]
    · rw [elementStep_allZero ParseFloat LongName st el hz]
      simp [hline]
  · rw [elementStep_not_line ParseFloat LongName st el hline]
    simp [hline]

theorem foldl_elementStep_stderr (LongName : String) (els : List XMLElement) (st : SegState) :
    (els.foldl (elementStep ParseFloat LongName) st).stderr
      = st.stderr ++ els.filterMap (diagnosticOf ParseFloat LongName) := by
  induction els generalizing st with
  | nil => simp
  | cons el els ih =>
    rw [List.foldl_cons, ih, elementStep_stderr, List.filterMap_cons]
    cases diagnosticOf ParseFloat LongName el <;> simp

theorem processVideoMap_stderr (out : Output) (videomap : XMLVideoMap) :
    (processVideoMap ParseFloat out videomap).stderr
      = out.stderr
        ++ videomap.Elements.filterMap (diagnosticOf ParseFloat videomap.LongName) := by
  have h := foldl_elementStep_stderr ParseFloat videomap.LongName videomap.Elements
    ⟨none, out.stderr⟩
  unfold processVideoMap extractSegs
  simp only
  split <;> exact h

theorem foldl_processVideoMap_stderr (maps : List XMLVideoMap) (out : Output) :
    (maps.foldl (processVideoMap ParseFloat) out).stderr
      = out.stderr ++ maps.flatMap (fun videomap =>
          videomap.Elements.filterMap (diagnosticOf ParseFloat videomap.LongName)) := by
  induction maps generalizing out with
  | nil => simp
  | cons vm maps ih =>
    rw [List.foldl_cons, ih, processVideoMap_stderr, List.flatMap_cons, List.append_assoc]

end Diagnostics

/-- C13: the diagnostics written are exactly one per `Line` element that is
not all-`0` and has an unparseable coordinate, map by map and element by
element in input order; each names the owning map and carries the parse error
of the first failing field in the order StartLat, StartLon, EndLat, EndLon;
every element is exactly one of non-`Line`, all-zero, diagnosed, retained, and
only the diagnosed ones write a line. -/
theorem C13_diagnostics_one_per_unparseable_line
    (ParseFloat : String → Except String F32) (root : XMLFacilityBundle) :
    (mainLoop ParseFloat root).stderr
        = (allMaps root).flatMap (fun videomap =>
            videomap.Elements.filterMap (diagnosticOf ParseFloat videomap.LongName))
      ∧ (∀ el : XMLElement,
          (decide (el.Type_ ≠ "Line")).toNat + (el.Type_ == "Line" && allZero el).toNat
            + (diagnosed ParseFloat el).toNat + (retained ParseFloat el).toNat = 1)
      ∧ (∀ LongName el, (diagnosticOf ParseFloat LongName el).isSome
          = diagnosed ParseFloat el)
      ∧ (∀ LongName el, diagnosed ParseFloat el = true →
          ∃ err, firstParseError ParseFloat el = some err
            ∧ diagnosticOf ParseFloat LongName el
              = some (LongName ++ ": " ++ err ++ ". Skipping this segment.\n"))
      ∧ (∀ el err, firstParseError ParseFloat el = some err →
          ParseFloat el.StartLat = Except.error err
          ∨ ((∃ v, ParseFloat el.StartLat = Except.ok v)
              ∧ (ParseFloat el.StartLon = Except.error err
            ∨ ((∃ v, ParseFloat el.StartLon = Except.ok v)
              ∧ (ParseFloat el.EndLat = Except.error err
            ∨ ((∃ v, ParseFloat el.EndLat = Except.ok v)
              ∧ ParseFloat el.EndLon = Except.error err)))))) := by
  refine ⟨?_, ?_, ?_, ?_, ?_⟩
  · rw [mainLoop_eq_foldl, foldl_processVideoMap_stderr]
    simp [emptyOutput]
  · intro el
    unfold diagnosed retained
    by_cases hline : el.Type_ = "Line" <;> cases allZero el <;>
      cases endpoints ParseFloat el <;> simp [hline]
  · intro LongName el
    unfold diagnosticOf
    cases hd : diagnosed ParseFloat el
    · simp
    · have hs := firstParseError_isSome ParseFloat el
      simp only [diagnosed, Bool.and_eq_true] at hd
      rw [hd.2] at hs
      simp [Option.isSome_map', hs]
  · intro LongName el hd
    have hs := firstParseError_isSome ParseFloat el
    have hd' := hd
    simp only [diagnosed, Bool.and_eq_true] at hd'
    rw [hd'.2] at hs
    obtain ⟨err, herr⟩ := Option.isSome_iff_exists.1 hs
    refine ⟨err, herr, ?_⟩
    unfold diagnosticOf
    rw [if_pos hd, herr]
    rfl
  · intro el err h
    unfold firstParseError at h
    cases h1 : ParseFloat el.StartLat with
    | error e =>
      rw [h1] at h
      left
      rw [Option.some.inj h]
    | ok v1 =>
      rw [h1] at h
      right
      refine ⟨⟨v1, rfl⟩, ?_⟩
      cases h2 : ParseFloat el.StartLon with
      | error e =>
        rw [h2] at h
        left
        rw [Option.some.inj h]
      | ok v2 =>
        rw [h2] at h
        right
        refine ⟨⟨v2, rfl⟩, ?_⟩
        cases h3 : ParseFloat el.EndLat with
        | error e =>
          rw [h3] at h
          left
          rw [Option.some.inj h]
        | ok v3 =>
          rw [h3] at h
          right
          refine ⟨⟨v3, rfl⟩, ?_⟩
          cases h4 : ParseFloat el.EndLon with
          | error e =>
            rw [h4] at h
            rw [Option.some.inj h]
          | ok v4 =>
            rw [h4] at h
            exact Option.noConfusion h

/-! ## Sign, hemisphere letters and the decode fallback -/

theorem abs_neg_eq (v : F32) : abs (F32.neg v) = abs v := by
  cases v with
  | fin n =>
    show abs (F32.fin (-n)) = abs (F32.fin n)
    rw [abs_fin, abs_fin, Int.natAbs_neg]
  | inf neg => cases neg <;> rfl
  | nan => rfl

theorem gtZero_neg (v : F32) : (F32.neg v).gtZero = v.ltZero := by
  cases v with
  | fin n =>
    show decide (0 < -n) = decide (n < 0)
    by_cases h : n < 0
    · have h' : 0 < -n := by omega
      simp [h, h']
    · have h' : ¬ 0 < -n := by omega
      simp [h, h']
  | inf neg => cases neg <;> rfl
  | nan => rfl

theorem letter_ne (a b : Bool) (x y : String) (hxy : x ≠ y) :
    ((if a = true then x else y) ≠ (if b = true then x else y)) ↔ a ≠ b := by
  cases a <;> cases b <;> simp [hxy, Ne.symm hxy]

/-- C14: replacing a coordinate by its negative leaves the digit part of that
axis and the whole other axis of the token unchanged; the hemisphere letter
goes from N to S or from S to N for a positive or negative latitude, from E to
W or from W to E for a positive or negative longitude, and it changes in no
other case. -/
theorem C14_negation_flips_only_the_letter (archInt : F32 → Int) (v w : F32) :
    (∃ a b : String,
        Point2LL.DMSString archInt ⟨w, v⟩
            = (a ++ format archInt (abs v)) ++ ","
                ++ ((if w.gtZero = true then "E" else "W") ++ format archInt (abs w))
          ∧ Point2LL.DMSString archInt ⟨w, F32.neg v⟩
            = (b ++ format archInt (abs v)) ++ ","
                ++ ((if w.gtZero = true then "E" else "W") ++ format archInt (abs w))
          ∧ (v.gtZero = true → a = "N" ∧ b = "S")
          ∧ (v.ltZero = true → a = "S" ∧ b = "N")
          ∧ (a ≠ b ↔ (v.gtZero = true ∨ v.ltZero = true)))
      ∧ (∃ a b : String,
        Point2LL.DMSString archInt ⟨v, w⟩
            = ((if w.gtZero = true then "N" else "S") ++ format archInt (abs w)) ++ ","
                ++ (a ++ format archInt (abs v))
          ∧ Point2LL.DMSString archInt ⟨F32.neg v, w⟩
            = ((if w.gtZero = true then "N" else "S") ++ format archInt (abs w)) ++ ","
                ++ (b ++ format archInt (abs v))
          ∧ (v.gtZero = true → a = "E" ∧ b = "W")
          ∧ (v.ltZero = true → a = "W" ∧ b = "E")
          ∧ (a ≠ b ↔ (v.gtZero = true ∨ v.ltZero = true)))
      ∧ format archInt (abs (F32.neg v)) = format archInt (abs v) := by
  have hflip : ∀ x y : String, x ≠ y →
      (v.gtZero = true → (if v.gtZero = true then x else y) = x
          ∧ (if v.ltZero = true then x else y) = y)
        ∧ (v.ltZero = true → (if v.gtZero = true then x else y) = y
          ∧ (if v.ltZero = true then x else y) = x)
        ∧ ((if v.gtZero = true then x else y) ≠ (if v.ltZero = true then x else y)
          ↔ (v.gtZero = true ∨ v.ltZero = true)) := by
    intro x y hxy
    refine ⟨?_, ?_, ?_⟩
    · intro h
      have h2 : v.ltZero = false := by
        cases hl : v.ltZero
        · rfl
        · rw [gtZero_false_of_ltZero v hl] at h
          exact Bool.noConfusion h
      simp [h, h2]
    · intro h
      simp [gtZero_false_of_ltZero v h, h]
    · rw [letter_ne _ _ x y hxy]
      cases hg : v.gtZero <;> cases hl : v.ltZero <;> simp
      rw [gtZero_false_of_ltZero v hl] at hg
      exact Bool.noConfusion hg
  refine ⟨⟨if v.gtZero = true then "N" else "S", if v.ltZero = true then "N" else "S",
      ?_, ?_, hflip "N" "S" (by decide)⟩,
    ⟨if v.gtZero = true then "E" else "W", if v.ltZero = true then "E" else "W",
      ?_, ?_, hflip "E" "W" (by decide)⟩, by rw [abs_neg_eq]⟩
  · rw [DMSString_eq]
    simp only [String.append_assoc, Point2LL.index]
  · rw [DMSString_eq]
    simp only [String.append_assoc, Point2LL.index, abs_neg_eq, gtZero_neg]
  · rw [DMSString_eq]
    simp only [String.append_assoc, Point2LL.index]
  · rw [DMSString_eq]
    simp only [String.append_assoc, Point2LL.index, abs_neg_eq, gtZero_neg]

/-- C16, as stated, fails: a first decode that yields one `VideoMaps` group
without `VideoMap` children yields zero `VideoMap` records, yet the second
decode attempt is not made. -/
theorem C16_counterexample_empty_group_no_fallback :
    allMaps emptyGroup = []
      ∧ (decodeStage (Except.ok emptyGroup) (Except.ok [⟨[firstMapX]⟩])).secondAttempt = false
      ∧ (decodeStage (Except.ok emptyGroup) (Except.ok [⟨[firstMapX]⟩])).root
          = Except.ok emptyGroup := by
  decide

/-- C16, amended: the second decode attempt is made exactly when the first
decode succeeds and yields zero `VideoMaps` groups; the bundle then holds what
the second decode yields, and in every other case the outcome of the first
decode stands. -/
theorem C16_fallback_iff_no_group
    (first : Except String XMLFacilityBundle) (second : Except String (List XMLVideoMaps)) :
    ((decodeStage first second).secondAttempt = true
        ↔ ∃ root, first = Except.ok root ∧ root.VideoMaps = [])
      ∧ ((decodeStage first second).secondAttempt = true →
          (decodeStage first second).root = second.map (fun groups => ⟨groups⟩))
      ∧ ((decodeStage first second).secondAttempt = false →
          (decodeStage first second).root = first) := by
  cases first with
  | error err => simp [decodeStage]
  | ok root =>
    cases hg : root.VideoMaps with
    | nil =>
      cases second with
      | error err => simp [decodeStage, hg, Except.map]
      | ok groups => simp [decodeStage, hg, Except.map]
    | cons g gs => simp [decodeStage, hg]

set_option maxRecDepth 100000 in
/-- C19: a coordinate that is exactly zero gets the southern or western
letter, the point (0, 0) rendering as `S000.00.00.000,W000.00.00.000`; for
every point the latitude letter is `N` exactly when the latitude is greater
than zero and `S` otherwise, and the longitude letter is `E` exactly when the
longitude is greater than zero and `W` otherwise. -/
theorem C19_zero_is_south_and_west (archInt : F32 → Int) (p : Point2LL) :
    Point2LL.DMSString archInt ⟨F32.fin 0, F32.fin 0⟩ = "S000.00.00.000,W000.00.00.000"
      ∧ F32.ofRatio false 0 1 = F32.fin 0
      ∧ ∃ latLetter lonLetter : String,
          p.DMSString archInt
              = (latLetter ++ format archInt (abs (p.index 1))) ++ ","
                  ++ (lonLetter ++ format archInt (abs (p.index 0)))
            ∧ (latLetter = "N" ↔ (p.index 1).gtZero = true)
            ∧ (latLetter = "S" ↔ (p.index 1).gtZero = false)
            ∧ (lonLetter = "E" ↔ (p.index 0).gtZero = true)
            ∧ (lonLetter = "W" ↔ (p.index 0).gtZero = false)
            ∧ ((p.DMSString archInt).data.head? = some 'N' ↔ (p.index 1).gtZero = true) := by
  refine ⟨Eq.trans (by rfl : _ = Point2LL.DMSString amd64Int ⟨F32.fin 0, F32.fin 0⟩)
      (by decide), by decide,
    if (p.index 1).gtZero = true then "N" else "S",
    if (p.index 0).gtZero = true then "E" else "W", ?_, ?_, ?_, ?_, ?_, ?_⟩
  · rw [DMSString_eq]
    simp only [String.append_assoc]
  · cases (p.index 1).gtZero <;> simp
  · cases (p.index 1).gtZero <;> simp
  · cases (p.index 0).gtZero <;> simp
  · cases (p.index 0).gtZero <;> simp
  · rw [DMSString_eq]
    simp only [String.data_append]
    cases (p.index 1).gtZero <;> simp

/-! ## The fields of `format`: lemmas -/

theorem format_eq_fields (archInt : F32 → Int) (v : F32) :
    format archInt v
      = sprintfZeroD 3 (formatFields archInt v).1
          ++ ("." ++ sprintfZeroD 2 (formatFields archInt v).2.1)
          ++ ("." ++ sprintfZeroD 2 (formatFields archInt v).2.2.1)
          ++ ("." ++ sprintfZeroD 3 (formatFields archInt v).2.2.2) := rfl

theorem sprintfZeroD_digitString (w : Nat) (n : Int) (hw : 0 < w) (h0 : 0 ≤ n)
    (hn : n < 10 ^ w) : digitString w (sprintfZeroD w n) = true := by
  obtain ⟨k, rfl⟩ := Int.eq_ofNat_of_zero_le h0
  have hk : k < 10 ^ w := by exact_mod_cast hn
  rw [sprintfZeroD_natCast]
  unfold digitString
  rw [zeroPad_length w k hw hk]
  simp only [beq_self_eq_true, Bool.true_and, List.all_eq_true]
  exact zeroPad_isDigit w k

theorem floor_exact_of_fixed (n : Nat) (hfix : roundMag n 1 = n) :
    roundMag (n / unit * unit) 1 = n / unit * unit := by
  rcases Nat.lt_or_ge (n / unit) (2 ^ 24) with h | h
  · exact floor_exact_of_small _ h
  · rw [Nat.div_mul_cancel (unit_dvd_of_fixed _ hfix h)]
    exact hfix

theorem floor_fin_eq (n : Nat) (hfl : roundMag (n / unit * unit) 1 = n / unit * unit)
    (hov : n < overflowBound) :
    floor (F32.fin (n : Int)) = F32.fin ((n / unit * unit : Nat) : Int) := by
  have hle : n / unit * unit ≤ n := Nat.div_mul_le_self n unit
  show F32.ofUnits ((n : Int) / (unit : Int) * (unit : Int)) = _
  have : (n : Int) / (unit : Int) * (unit : Int) = ((n / unit * unit : Nat) : Int) := by
    push_cast; rfl
  rw [this, ofUnits_natCast, round_false_of_lt _ _ (by omega), hfl]

/-- The stage values of `format` at a finite non-negative binary32 value. -/
theorem formatStages_fin (n : Nat) (hfix : roundMag n 1 = n) (hov : n < overflowBound) :
    formatStages (F32.fin (n : Int))
        = (F32.fin (n : Int), F32.fin ((nextField 60 n : Nat) : Int),
            F32.fin ((nextField 60 (nextField 60 n) : Nat) : Int),
            F32.fin ((nextField 1000 (nextField 60 (nextField 60 n)) : Nat) : Int))
      ∧ nextField 60 n / unit ≤ 59
      ∧ nextField 60 (nextField 60 n) / unit ≤ 59
      ∧ nextField 1000 (nextField 60 (nextField 60 n)) / unit ≤ 999
      ∧ nextField 60 n ≤ 60 * unit
      ∧ nextField 60 (nextField 60 n) ≤ 60 * unit
      ∧ nextField 1000 (nextField 60 (nextField 60 n)) ≤ 1000 * unit := by
  obtain ⟨e1, b1⟩ := format_step n 60 (floor_exact_of_fixed n hfix) hov (by norm_num)
  have d1 := div_unit_le _ _ b1
  obtain ⟨e2, b2⟩ := format_step (nextField 60 n) 60
    (floor_exact_of_small _ (by omega)) (lt_overflow_of_le _ 60 (by norm_num) b1) (by norm_num)
  have d2 := div_unit_le _ _ b2
  obtain ⟨e3, b3⟩ := format_step (nextField 60 (nextField 60 n)) 1000
    (floor_exact_of_small _ (by omega)) (lt_overflow_of_le _ 60 (by norm_num) b2) (by norm_num)
  have s1 : nextField 60 n / unit ≤ 59 := by
    have := nextField_sixty_lt n 1
    rwa [hfix] at this
  have s2 : nextField 60 (nextField 60 n) / unit ≤ 59 :=
    nextField_sixty_lt (roundMag (n % unit) 1 * 60) 1
  have s3 : nextField 1000 (nextField 60 (nextField 60 n)) / unit ≤ 999 :=
    nextField_thousand_lt (roundMag (nextField 60 n % unit) 1 * 60) 1
  refine ⟨?_, s1, s2, s3, b1, b2, b3⟩
  unfold formatStages
  simp only [e1, e2, e3]

theorem floor_agrees_with_toInt (archInt : F32 → Int) (n : Nat)
    (hfl : roundMag (n / unit * unit) 1 = n / unit * unit) (hint : n / unit < 2 ^ 63)
    (hov : n < overflowBound) :
    floor (F32.fin (n : Int)) = F32.fin (toInt archInt (F32.fin (n : Int)) * (unit : Int)) := by
  rw [floor_fin_eq n hfl hov, toInt_fin archInt n hint]
  push_cast
  rfl

theorem nat_count_identity (n U : Nat) (hU : 0 < U) :
    n / U * 3600000 + (n % U * 60) / U * 60000 + ((n % U * 60) % U * 60) / U * 1000
        + (((n % U * 60) % U * 60) % U * 1000) / U
      = n * 3600000 / U := by
  have h0 := Nat.div_add_mod n U
  have h1 := Nat.div_add_mod (n % U * 60) U
  have h2 := Nat.div_add_mod ((n % U * 60) % U * 60) U
  have h3 := Nat.div_add_mod (((n % U * 60) % U * 60) % U * 1000) U
  have hr : (((n % U * 60) % U * 60) % U * 1000) % U < U := Nat.mod_lt _ hU
  generalize n / U = d at *
  generalize n % U = r0 at *
  generalize (r0 * 60) / U = m at *
  generalize (r0 * 60) % U = r1 at *
  generalize (r1 * 60) / U = s at *
  generalize (r1 * 60) % U = r2 at *
  generalize (r2 * 1000) / U = k at *
  generalize (r2 * 1000) % U = r3 at *
  symm
  apply Nat.div_eq_of_lt_le
  · have : (d * 3600000 + m * 60000 + s * 1000 + k) * U + r3 = n * 3600000 := by
      have e0 : U * d * 3600000 + r0 * 3600000 = n * 3600000 := by rw [← h0]; ring
      have e1 : U * m * 60000 + r1 * 60000 = r0 * 3600000 := by
        have : r0 * 3600000 = (r0 * 60) * 60000 := by ring
        rw [this, ← h1]; ring
      have e2 : U * s * 1000 + r2 * 1000 = r1 * 60000 := by
        have : r1 * 60000 = (r1 * 60) * 1000 := by ring
        rw [this, ← h2]; ring
      have e3 : U * k + r3 = r2 * 1000 := h3
      have e4 : (d * 3600000 + m * 60000 + s * 1000 + k) * U
          = U * d * 3600000 + U * m * 60000 + U * s * 1000 + U * k := by ring
      omega
    omega
  · have : (d * 3600000 + m * 60000 + s * 1000 + k) * U + r3 = n * 3600000 := by
      have e0 : U * d * 3600000 + r0 * 3600000 = n * 3600000 := by rw [← h0]; ring
      have e1 : U * m * 60000 + r1 * 60000 = r0 * 3600000 := by
        have : r0 * 3600000 = (r0 * 60) * 60000 := by ring
        rw [this, ← h1]; ring
      have e2 : U * s * 1000 + r2 * 1000 = r1 * 60000 := by
        have : r1 * 60000 = (r1 * 60) * 1000 := by ring
        rw [this, ← h2]; ring
      have e3 : U * k + r3 = r2 * 1000 := h3
      have e4 : (d * 3600000 + m * 60000 + s * 1000 + k) * U
          = U * d * 3600000 + U * m * 60000 + U * s * 1000 + U * k := by ring
      omega
    have e5 : (d * 3600000 + m * 60000 + s * 1000 + k + 1) * U
        = (d * 3600000 + m * 60000 + s * 1000 + k) * U + U := by ring
    omega

theorem scaled_mod_div_lt (x c : Nat) : (x % unit * c) / unit < c ∨ c = 0 := by
  rcases Nat.eq_zero_or_pos c with h | h
  · exact Or.inr h
  · left
    rw [Nat.div_lt_iff_lt_mul unit_pos]
    exact Nat.mul_lt_mul_of_lt_of_le (Nat.mod_lt _ unit_pos) (le_refl c) h |>.trans_le
      (le_of_eq (Nat.mul_comm _ _))

set_option maxRecDepth 100000 in
/-- C15, as stated, fails: the 32-bit float nearest `1e30` is finite and
non-negative and every float operation of the formatter is exact on it, yet
`int(v)` is outside the `int` range, amd64 yields `-2^63`, and `floor(v)` is
the float itself: the two do not agree. -/
theorem C15_counterexample_int_out_of_range :
    (F32.ofRatio false (10 ^ 30) 1).isValue = true
      ∧ (F32.ofRatio false (10 ^ 30) 1).ltZero = false
      ∧ arithmeticExact (F32.ofRatio false (10 ^ 30) 1) = true
      ∧ floor (F32.ofRatio false (10 ^ 30) 1) = F32.ofRatio false (10 ^ 30) 1
      ∧ toInt amd64Int (F32.ofRatio false (10 ^ 30) 1) = -(2 ^ 63)
      ∧ floor (F32.ofRatio false (10 ^ 30) 1)
          ≠ F32.fin (toInt amd64Int (F32.ofRatio false (10 ^ 30) 1) * (unit : Int)) := by
  decide

set_option maxRecDepth 100000 in
theorem seconds_example (archInt : F32 → Int) :
    toInt archInt (F32.ofRatio false 599999 10000) = 59
      ∧ format archInt (F32.ofRatio false 599999 36000000) = "000.00.59.999" :=
  ⟨Eq.trans (by rfl : _ = toInt amd64Int (F32.ofRatio false 599999 10000)) (by decide),
   Eq.trans (by rfl : _ = format amd64Int (F32.ofRatio false 599999 36000000)) (by decide)⟩

/-- C15, amended: for every finite non-negative 32-bit float handed to the
formatter, in the float arithmetic the code performs, the value at each stage
is finite and non-negative; `int` and `floor` agree on it at the minutes,
seconds and thousandths stages, and at the degrees stage when the magnitude is
below `2^63`; the minutes and seconds fields lie in 0..59 and the last field in
0..999, so they print as exactly 2, 2 and 3 digits, each after a point; a
seconds value of 59.9999 prints 59. -/
theorem C15_fields_in_range (archInt : F32 → Int) (n : Nat)
    (hvalue : (F32.fin (n : Int)).isValue = true) :
    (∃ n1 n2 n3 : Nat,
        formatStages (F32.fin (n : Int))
            = (F32.fin (n : Int), F32.fin (n1 : Int), F32.fin (n2 : Int), F32.fin (n3 : Int))
          ∧ floor (F32.fin (n1 : Int))
              = F32.fin (toInt archInt (F32.fin (n1 : Int)) * (unit : Int))
          ∧ floor (F32.fin (n2 : Int))
              = F32.fin (toInt archInt (F32.fin (n2 : Int)) * (unit : Int))
          ∧ floor (F32.fin (n3 : Int))
              = F32.fin (toInt archInt (F32.fin (n3 : Int)) * (unit : Int)))
      ∧ (n / unit < 2 ^ 63 →
          floor (F32.fin (n : Int))
              = F32.fin (toInt archInt (F32.fin (n : Int)) * (unit : Int))
            ∧ (formatFields archInt (F32.fin (n : Int))).1 = ((n / unit : Nat) : Int))
      ∧ (0 ≤ (formatFields archInt (F32.fin (n : Int))).2.1
        ∧ (formatFields archInt (F32.fin (n : Int))).2.1 ≤ 59)
      ∧ (0 ≤ (formatFields archInt (F32.fin (n : Int))).2.2.1
        ∧ (formatFields archInt (F32.fin (n : Int))).2.2.1 ≤ 59)
      ∧ (0 ≤ (formatFields archInt (F32.fin (n : Int))).2.2.2
        ∧ (formatFields archInt (F32.fin (n : Int))).2.2.2 ≤ 999)
      ∧ format archInt (F32.fin (n : Int))
          = sprintfZeroD 3 (formatFields archInt (F32.fin (n : Int))).1
              ++ ("." ++ sprintfZeroD 2 (formatFields archInt (F32.fin (n : Int))).2.1)
              ++ ("." ++ sprintfZeroD 2 (formatFields archInt (F32.fin (n : Int))).2.2.1)
              ++ ("." ++ sprintfZeroD 3 (formatFields archInt (F32.fin (n : Int))).2.2.2)
      ∧ digitString 2 (sprintfZeroD 2 (formatFields archInt (F32.fin (n : Int))).2.1) = true
      ∧ digitString 2 (sprintfZeroD 2 (formatFields archInt (F32.fin (n : Int))).2.2.1) = true
      ∧ digitString 3 (sprintfZeroD 3 (formatFields archInt (F32.fin (n : Int))).2.2.2) = true
      ∧ toInt archInt (F32.ofRatio false 599999 10000) = 59
      ∧ format archInt (F32.ofRatio false 599999 36000000) = "000.00.59.999" := by
  obtain ⟨hfix, hov⟩ := isValue_fin (n : Int) hvalue
  simp only [Int.natAbs_ofNat] at hfix hov
  obtain ⟨est, s1, s2, s3, b1, b2, b3⟩ := formatStages_fin n hfix hov
  have h24a : nextField 60 n / unit < 2 ^ 24 := lt_of_le_of_lt s1 (by norm_num)
  have h63a : nextField 60 n / unit < 2 ^ 63 := lt_of_le_of_lt s1 (by norm_num)
  have h24b : nextField 60 (nextField 60 n) / unit < 2 ^ 24 := lt_of_le_of_lt s2 (by norm_num)
  have h63b : nextField 60 (nextField 60 n) / unit < 2 ^ 63 := lt_of_le_of_lt s2 (by norm_num)
  have h24c : nextField 1000 (nextField 60 (nextField 60 n)) / unit < 2 ^ 24 :=
    lt_of_le_of_lt s3 (by norm_num)
  have h63c : nextField 1000 (nextField 60 (nextField 60 n)) / unit < 2 ^ 63 :=
    lt_of_le_of_lt s3 (by norm_num)
  have i1 := toInt_fin archInt (nextField 60 n) h63a
  have i2 := toInt_fin archInt (nextField 60 (nextField 60 n)) h63b
  have i3 := toInt_fin archInt (nextField 1000 (nextField 60 (nextField 60 n))) h63c
  have a1 := floor_agrees_with_toInt archInt (nextField 60 n)
    (floor_exact_of_small _ h24a) h63a (lt_overflow_of_le _ 60 (by norm_num) b1)
  have a2 := floor_agrees_with_toInt archInt (nextField 60 (nextField 60 n))
    (floor_exact_of_small _ h24b) h63b (lt_overflow_of_le _ 60 (by norm_num) b2)
  have a3 := floor_agrees_with_toInt archInt (nextField 1000 (nextField 60 (nextField 60 n)))
    (floor_exact_of_small _ h24c) h63c (lt_overflow_of_le _ 1000 (by norm_num) b3)
  have f1 : (formatFields archInt (F32.fin (n : Int))).2.1
      = ((nextField 60 n / unit : Nat) : Int) := by
    simp only [formatFields, est]
    exact i1
  have f2 : (formatFields archInt (F32.fin (n : Int))).2.2.1
      = ((nextField 60 (nextField 60 n) / unit : Nat) : Int) := by
    simp only [formatFields, est]
    exact i2
  have f3 : (formatFields archInt (F32.fin (n : Int))).2.2.2
      = ((nextField 1000 (nextField 60 (nextField 60 n)) / unit : Nat) : Int) := by
    simp only [formatFields, est]
    exact i3
  have r1 : 0 ≤ (formatFields archInt (F32.fin (n : Int))).2.1
      ∧ (formatFields archInt (F32.fin (n : Int))).2.1 ≤ 59 := by
    rw [f1]; exact ⟨Int.ofNat_nonneg _, by exact_mod_cast s1⟩
  have r2 : 0 ≤ (formatFields archInt (F32.fin (n : Int))).2.2.1
      ∧ (formatFields archInt (F32.fin (n : Int))).2.2.1 ≤ 59 := by
    rw [f2]; exact ⟨Int.ofNat_nonneg _, by exact_mod_cast s2⟩
  have r3 : 0 ≤ (formatFields archInt (F32.fin (n : Int))).2.2.2
      ∧ (formatFields archInt (F32.fin (n : Int))).2.2.2 ≤ 999 := by
    rw [f3]; exact ⟨Int.ofNat_nonneg _, by exact_mod_cast s3⟩
  refine ⟨⟨_, _, _, est, a1, a2, a3⟩, ?_, r1, r2, r3, format_eq_fields archInt _,
    sprintfZeroD_digitString 2 _ (by norm_num) r1.1 (by norm_num; exact lt_of_le_of_lt r1.2 (by norm_num)),
    sprintfZeroD_digitString 2 _ (by norm_num) r2.1 (by norm_num; exact lt_of_le_of_lt r2.2 (by norm_num)),
    sprintfZeroD_digitString 3 _ (by norm_num) r3.1 (by norm_num; exact lt_of_le_of_lt r3.2 (by norm_num)), ?_, ?_⟩
  · intro hint
    refine ⟨floor_agrees_with_toInt archInt n (floor_exact_of_fixed n hfix) hint hov, ?_⟩
    simp only [formatFields, est]
    exact toInt_fin archInt n hint
  · exact (seconds_example archInt).1
  · exact (seconds_example archInt).2

set_option maxRecDepth 100000 in
/-- C15 amended, at the float nearest 39.860901. -/
theorem C15_fields_in_range_witness :
    (F32.fin ((653081 * 2 ^ 135 : Nat) : Int)).isValue = true
      ∧ (0 ≤ (formatFields amd64Int (F32.fin ((653081 * 2 ^ 135 : Nat) : Int))).2.2.1
        ∧ (formatFields amd64Int (F32.fin ((653081 * 2 ^ 135 : Nat) : Int))).2.2.1 ≤ 59) :=
  ⟨by decide, (C15_fields_in_range amd64Int (653081 * 2 ^ 135) (by decide)).2.2.2.1⟩

/-- Where the arithmetic is exact, the stage values are the exact ones. -/
theorem formatStages_of_exact (n : Nat) (he : arithmeticExact (F32.fin (n : Int)) = true) :
    formatStages (F32.fin (n : Int))
      = (F32.fin (n : Int), F32.fin ((n % unit * 60 : Nat) : Int),
          F32.fin (((n % unit * 60) % unit * 60 : Nat) : Int),
          F32.fin ((((n % unit * 60) % unit * 60) % unit * 1000 : Nat) : Int)) := by
  have h0 : (formatStages (F32.fin (n : Int))).1 = F32.fin (n : Int) := rfl
  unfold arithmeticExact at he
  rcases hst : formatStages (F32.fin (n : Int)) with ⟨v0, v1, v2, v3⟩
  rw [hst] at he h0
  simp only at h0
  subst h0
  cases v1 with
  | fin n1 =>
    cases v2 with
    | fin n2 =>
      cases v3 with
      | fin n3 =>
        simp only [Bool.and_eq_true, decide_eq_true_eq] at he
        obtain ⟨⟨e1, e2⟩, e3⟩ := he
        have c1 : n1 = ((n % unit * 60 : Nat) : Int) := by rw [e1]; push_cast; rfl
        subst c1
        have c2 : n2 = (((n % unit * 60) % unit * 60 : Nat) : Int) := by
          rw [e2]; push_cast; rfl
        subst c2
        have c3 : n3 = ((((n % unit * 60) % unit * 60) % unit * 1000 : Nat) : Int) := by
          rw [e3]; push_cast; rfl
        subst c3
        rfl
      | inf b => simp at he
      | nan => simp at he
    | inf b => simp at he
    | nan => simp at he
  | inf b => simp at he
  | nan => simp at he

/-- The four fields where the arithmetic is exact and the degrees fit `int`. -/
theorem formatFields_of_exact (archInt : F32 → Int) (n : Nat)
    (he : arithmeticExact (F32.fin (n : Int)) = true) (hr : n / unit < 2 ^ 63) :
    formatFields archInt (F32.fin (n : Int))
      = (((n / unit : Nat) : Int), (((n % unit * 60) / unit : Nat) : Int),
          ((((n % unit * 60) % unit * 60) / unit : Nat) : Int),
          (((((n % unit * 60) % unit * 60) % unit * 1000) / unit : Nat) : Int)) := by
  have b1 : (n % unit * 60) / unit < 60 := by
    rcases scaled_mod_div_lt n 60 with h | h
    · exact h
    · exact absurd h (by norm_num)
  have b2 : ((n % unit * 60) % unit * 60) / unit < 60 := by
    rcases scaled_mod_div_lt (n % unit * 60) 60 with h | h
    · exact h
    · exact absurd h (by norm_num)
  have b3 : (((n % unit * 60) % unit * 60) % unit * 1000) / unit < 1000 := by
    rcases scaled_mod_div_lt ((n % unit * 60) % unit * 60) 1000 with h | h
    · exact h
    · exact absurd h (by norm_num)
  simp only [formatFields, formatStages_of_exact n he]
  rw [toInt_fin archInt n hr, toInt_fin archInt _ (lt_trans b1 (by norm_num)),
    toInt_fin archInt _ (lt_trans b2 (by norm_num)),
    toInt_fin archInt _ (lt_trans b3 (by norm_num))]

theorem fieldsCount_of_exact (archInt : F32 → Int) (n : Nat)
    (he : arithmeticExact (F32.fin (n : Int)) = true) (hr : n / unit < 2 ^ 63) :
    fieldsCount (formatFields archInt (F32.fin (n : Int)))
      = ((n * 3600000 / unit : Nat) : Int) := by
  rw [formatFields_of_exact archInt n he hr]
  unfold fieldsCount
  simp only
  rw [← nat_count_identity n unit unit_pos]
  push_cast
  rfl

theorem truncatedCount_fin (n : Nat) :
    truncatedCount (F32.fin (n : Int)) = ((n * 3600000 / unit : Nat) : Int) := by
  unfold truncatedCount
  push_cast
  rfl

theorem truncatedCount_eq_floor (n : Nat) :
    truncatedCount (F32.fin (n : Int)) = ⌊(n : ℚ) / (unit : ℚ) * 3600000⌋ := by
  rw [truncatedCount_fin]
  have e : (n : ℚ) / (unit : ℚ) * 3600000 = ((n * 3600000 : Nat) : ℚ) / ((unit : Nat) : ℚ) := by
    push_cast
    ring
  rw [e, Rat.floor_natCast_div_natCast]
  norm_cast

set_option maxRecDepth 100000 in
/-- C17, as stated, fails on the code.  On the float nearest `1e30` every float
operation of the formatter is exact, yet the degrees field is what `int(v)`
yields out of range, `-2^63` on amd64, so the fields do not add up to the
truncated count.  On the float nearest 0.0052777776 the first multiplication
rounds, the token reads `000.00.19.000`, and its count 19000 is above the
truncated count 18999: the formatter rounds up. -/
theorem C17_counterexample_count_differs :
    arithmeticExact (F32.ofRatio false (10 ^ 30) 1) = true
      ∧ formatFields amd64Int (F32.ofRatio false (10 ^ 30) 1) = (-(2 ^ 63), 0, 0, 0)
      ∧ fieldsCount (formatFields amd64Int (F32.ofRatio false (10 ^ 30) 1))
          ≠ truncatedCount (F32.ofRatio false (10 ^ 30) 1)
      ∧ format amd64Int (F32.ofRatio false 52777776 10000000000) = "000.00.19.000"
      ∧ fieldsCount (formatFields amd64Int (F32.ofRatio false 52777776 10000000000)) = 19000
      ∧ truncatedCount (F32.ofRatio false 52777776 10000000000) = 18999 := by
  decide

/-- C17, amended: for every finite non-negative 32-bit float `v` below `2^63`
on which the float arithmetic of the formatter is exact, the four printed
fields satisfy `d*3600000 + m*60000 + s*1000 + k = floor(v * 3600000)` and are
the mixed-radix digits of that count; on such values the count never exceeds
`v * 3600000` and is monotone in `v`. -/
theorem C17_fields_are_truncated_count_when_exact (archInt : F32 → Int) (n w : Nat)
    (hen : arithmeticExact (F32.fin (n : Int)) = true)
    (hew : arithmeticExact (F32.fin (w : Int)) = true)
    (hrn : n / unit < 2 ^ 63) (hrw : w / unit < 2 ^ 63) (hle : n ≤ w) :
    fieldsCount (formatFields archInt (F32.fin (n : Int))) = truncatedCount (F32.fin (n : Int))
      ∧ truncatedCount (F32.fin (n : Int)) = ⌊(n : ℚ) / (unit : ℚ) * 3600000⌋
      ∧ (formatFields archInt (F32.fin (n : Int))).1
          = truncatedCount (F32.fin (n : Int)) / 3600000
      ∧ (formatFields archInt (F32.fin (n : Int))).2.1
          = truncatedCount (F32.fin (n : Int)) / 60000 % 60
      ∧ (formatFields archInt (F32.fin (n : Int))).2.2.1
          = truncatedCount (F32.fin (n : Int)) / 1000 % 60
      ∧ (formatFields archInt (F32.fin (n : Int))).2.2.2
          = truncatedCount (F32.fin (n : Int)) % 1000
      ∧ ((fieldsCount (formatFields archInt (F32.fin (n : Int))) : Int) : ℚ)
          ≤ (n : ℚ) / (unit : ℚ) * 3600000
      ∧ fieldsCount (formatFields archInt (F32.fin (n : Int)))
          ≤ fieldsCount (formatFields archInt (F32.fin (w : Int)))
      ∧ format archInt (F32.fin (n : Int))
          = sprintfZeroD 3 (formatFields archInt (F32.fin (n : Int))).1
              ++ ("." ++ sprintfZeroD 2 (formatFields archInt (F32.fin (n : Int))).2.1)
              ++ ("." ++ sprintfZeroD 2 (formatFields archInt (F32.fin (n : Int))).2.2.1)
              ++ ("." ++ sprintfZeroD 3 (formatFields archInt (F32.fin (n : Int))).2.2.2) := by
  have hc := fieldsCount_of_exact archInt n hen hrn
  have hcw := fieldsCount_of_exact archInt w hew hrw
  have ht := truncatedCount_fin n
  have hf := formatFields_of_exact archInt n hen hrn
  have hsum : ((n / unit : Nat) : Int) * 3600000
      + (((n % unit * 60) / unit : Nat) : Int) * 60000
      + ((((n % unit * 60) % unit * 60) / unit : Nat) : Int) * 1000
      + (((((n % unit * 60) % unit * 60) % unit * 1000) / unit : Nat) : Int)
      = ((n * 3600000 / unit : Nat) : Int) := by
    rw [← nat_count_identity n unit unit_pos]
    push_cast
    rfl
  have b1 : (n % unit * 60) / unit < 60 := by
    rcases scaled_mod_div_lt n 60 with h | h
    · exact h
    · exact absurd h (by norm_num)
  have b2 : ((n % unit * 60) % unit * 60) / unit < 60 := by
    rcases scaled_mod_div_lt (n % unit * 60) 60 with h | h
    · exact h
    · exact absurd h (by norm_num)
  have b3 : (((n % unit * 60) % unit * 60) % unit * 1000) / unit < 1000 := by
    rcases scaled_mod_div_lt ((n % unit * 60) % unit * 60) 1000 with h | h
    · exact h
    · exact absurd h (by norm_num)
  generalize hd : ((n / unit : Nat) : Int) = d at hsum
  generalize hm : (((n % unit * 60) / unit : Nat) : Int) = m at hsum
  generalize hs : ((((n % unit * 60) % unit * 60) / unit : Nat) : Int) = s at hsum
  generalize hk : (((((n % unit * 60) % unit * 60) % unit * 1000) / unit : Nat) : Int) = k
    at hsum
  have hd0 : 0 ≤ d := by rw [← hd]; exact Int.ofNat_nonneg _
  have hm0 : 0 ≤ m ∧ m < 60 := by
    rw [← hm]; exact ⟨Int.ofNat_nonneg _, by exact_mod_cast b1⟩
  have hs0 : 0 ≤ s ∧ s < 60 := by
    rw [← hs]; exact ⟨Int.ofNat_nonneg _, by exact_mod_cast b2⟩
  have hk0 : 0 ≤ k ∧ k < 1000 := by
    rw [← hk]; exact ⟨Int.ofNat_nonneg _, by exact_mod_cast b3⟩
  rw [hd, hm, hs, hk] at hf
  refine ⟨by rw [hc, ht], truncatedCount_eq_floor n, ?_, ?_, ?_, ?_, ?_, ?_,
    format_eq_fields archInt _⟩
  · rw [hf, ht, ← hsum]; simp only; omega
  · rw [hf, ht, ← hsum]; simp only; omega
  · rw [hf, ht, ← hsum]; simp only; omega
  · rw [hf, ht, ← hsum]; simp only; omega
  · rw [hc, ← ht, truncatedCount_eq_floor n]
    exact Int.floor_le _
  · rw [hc, hcw]
    exact_mod_cast Nat.div_le_div_right (Nat.mul_le_mul_right 3600000 hle)

set_option maxRecDepth 100000 in
/-- C17 amended, at 10.3125 and 40 degrees, on which the arithmetic is exact. -/
theorem C17_fields_are_truncated_count_when_exact_witness :
    arithmeticExact (F32.fin ((165 * 2 ^ 145 : Nat) : Int)) = true
      ∧ arithmeticExact (F32.fin ((40 * 2 ^ 149 : Nat) : Int)) = true
      ∧ 165 * 2 ^ 145 / unit < 2 ^ 63 ∧ 40 * 2 ^ 149 / unit < 2 ^ 63
      ∧ 165 * 2 ^ 145 ≤ 40 * 2 ^ 149
      ∧ fieldsCount (formatFields amd64Int (F32.fin ((165 * 2 ^ 145 : Nat) : Int)))
          = truncatedCount (F32.fin ((165 * 2 ^ 145 : Nat) : Int)) :=
  ⟨by decide, by decide, by decide, by decide, by decide,
    (C17_fields_are_truncated_count_when_exact amd64Int (165 * 2 ^ 145) (40 * 2 ^ 149)
      (by decide) (by decide) (by decide) (by decide) (by decide)).1⟩

end Vstars2vice
